import Mathlib

/-!
# Log aggregation and follow engine of `edward` (`tail.go`)

A shallow embedding of `src/tail.go` and a verification of its behaviour.

Conventions of the embedding.

* Go strings are Lean `String`s; a slice is a `List`, `nil` is `[]`.
* A Go `error` value is a `GoError`; `nil` is `none` in an `Option GoError`.
  A Go result pair `([]runner.LogLine, error)` is the pair
  `List LogLine × Option GoError`, both components kept as in the source.
* `time.Time` is the instant as an `Int`; `Time.Before` is `<` on instants.
* Go `int` counters (`lineCount`, `linesSkipped`, `skipLines`) are `Int`.  They
  only count lines of a file, so 64-bit overflow cannot occur.
* Effects are a trace of `Event`s, threaded through the functions: opening a
  run log, starting a follower goroutine, and calling `printMessage`.
* Everything that `tail.go` imports from other packages is a field of `World`:
  the functions of `runner`, `services`, `config`, the file system as seen by
  `os.Open` + `bufio.Scanner` and by `tail.TailFile`, and `sort.Sort`.
-/

set_option autoImplicit false

namespace Edward

/-! ## Data model -/

/-- A Go `error` value: one created by another package (identified by its
message), possibly wrapped by `errors.WithStack`. -/
inductive GoError where
  | new (msg : String)
  | withStack (cause : GoError)
deriving DecidableEq, Repr, Inhabited

/-- The struct `runner.LogLine`, with the four fields `tail.go` uses. -/
structure LogLine where
  Name : String
  Time : Int
  Stream : String
  Message : String
deriving DecidableEq, Repr, Inhabited

/-- The field `Commands` of `services.ServiceConfig`. -/
structure ServiceConfigCommands where
  Launch : String
deriving DecidableEq, Repr, Inhabited

/-- The struct `services.ServiceConfig`: `RunLog` is the value of the method
`GetRunLog()`. -/
structure ServiceConfig where
  Name : String
  Commands : ServiceConfigCommands
  RunLog : String
deriving DecidableEq, Repr, Inhabited

/-- The struct `services.ServiceGroupConfig`: a finite tree of nested groups and
services. -/
inductive ServiceGroupConfig where
  | mk (Name : String) (Groups : List ServiceGroupConfig) (Services : List ServiceConfig)

/-- The interface `services.ServiceOrGroup` with its two dynamic types, as
matched by the type switch of `doLog`. -/
inductive ServiceOrGroup where
  | service (v : ServiceConfig)
  | group (v : ServiceGroupConfig)

/-- What a `bufio.Scanner` over an opened run log yields: the lines returned by
`scanner.Text()` while `scanner.Scan()` is true, then the value of
`scanner.Err()`. -/
structure ScanView where
  lines : List String
  scanErr : Option GoError
deriving DecidableEq, Repr, Inhabited

/-- The collaborators of `tail.go`. -/
structure World where
  /-- Models `runner.ParseLogLine`. -/
  ParseLogLine : String → Except GoError LogLine
  /-- Models `os.Open` on a run log, with the scanner view at scan time. -/
  Open : String → Except GoError ScanView
  /-- Models `tail.TailFile` in follow mode: the texts received on `t.Lines`. -/
  TailFile : String → Except GoError (List String)
  /-- Models `config.GetServicesOrGroups`. -/
  GetServicesOrGroups : List String → Except GoError (List ServiceOrGroup)
  /-- Models `services.CountServices`. -/
  CountServices : List ServiceOrGroup → Nat
  /-- Models `sort.Sort` applied to a `byTime` value: the slice afterwards. -/
  SortSort : List LogLine → List LogLine

/-- The observable effects of the functions of `tail.go`. -/
inductive Event where
  /-- Records `os.Open(runLog)`: the historical scan of a source begins. -/
  | opened (runLog : String)
  /-- Records `go doFollowServiceLog(service, lineCount, logChannel)`. -/
  | started (service : ServiceConfig) (skipLines : Int)
  /-- Records a call `printMessage(line, multiple)`. -/
  | printed (line : LogLine) (multiple : Bool)
deriving DecidableEq, Repr

/-! ## `byTime` -/

/-- The type `byTime []runner.LogLine`. -/
abbrev byTime := List LogLine

/-- The method `byTime.Len`. -/
def byTime.Len (a : byTime) : Nat := a.length

/-- The method `byTime.Swap`: `a[i], a[j] = a[j], a[i]`. -/
def byTime.Swap (a : byTime) (i j : Nat) : byTime :=
  (a.set i (a.getD j default)).set j (a.getD i default)

/-- The method `byTime.Less`: `a[i].Time.Before(a[j].Time)`. -/
def byTime.Less (a : byTime) (i j : Nat) : Bool :=
  decide ((a.getD i default).Time < (a.getD j default).Time)

/-! ## `followServiceLog` and `doFollowServiceLog` -/

/-- The loop `for scanner.Scan() { ... }` of `followServiceLog`, over the lines
the scanner still has to yield, with the current `initialLines` and `lineCount`. -/
def scanLoop (parse : String → Except GoError LogLine) :
    List String → List LogLine → Int → Except GoError (List LogLine × Int)
  | [], initialLines, lineCount => .ok (initialLines, lineCount)
  | text :: rest, initialLines, lineCount =>
    let lineCount := lineCount + 1
    match parse text with
    | .error err => .error (GoError.withStack err)
    | .ok line => scanLoop parse rest (initialLines ++ [line]) lineCount

/-- The function `followServiceLog`. -/
def followServiceLog (w : World) (service : ServiceConfig) (tr : List Event) :
    (List LogLine × Option GoError) × List Event :=
  if service.Commands.Launch = "" then
    (([], none), tr)
  else
    let runLog := service.RunLog
    let tr := tr ++ [Event.opened runLog]
    match w.Open runLog with
    | .error err => (([], some (GoError.withStack err)), tr)
    | .ok logFile =>
      match scanLoop w.ParseLogLine logFile.lines [] 0 with
      | .error err => (([], some err), tr)
      | .ok (initialLines, lineCount) =>
        match logFile.scanErr with
        | some err => (([], some (GoError.withStack err)), tr)
        | none => ((initialLines, none), tr ++ [Event.started service lineCount])

/-- The loop `for line := range t.Lines { ... }` of `doFollowServiceLog`, over
the lines still to be received, with the current `linesSkipped` and the values
written to `logChannel` so far. -/
def followLoop (parse : String → Except GoError LogLine) (skipLines : Int) :
    List String → Int → List LogLine → List LogLine × Option GoError
  | [], _, sent => (sent, none)
  | text :: rest, linesSkipped, sent =>
    if linesSkipped < skipLines then
      followLoop parse skipLines rest (linesSkipped + 1) sent
    else
      match parse text with
      | .error err => (sent, some (GoError.withStack err))
      | .ok lineData => followLoop parse skipLines rest linesSkipped (sent ++ [lineData])

/-- The function `doFollowServiceLog`: the values it writes to `logChannel`, in
order, and the error it returns (`none` while it is still following, or if
`t.Lines` is closed). -/
def doFollowServiceLog (w : World) (service : ServiceConfig) (skipLines : Int) :
    List LogLine × Option GoError :=
  let runLog := service.RunLog
  match w.TailFile runLog with
  | .error err => ([], some (GoError.withStack err))
  | .ok lines => followLoop w.ParseLogLine skipLines lines 0 []

/-! ## `followGroupLog` -/

/-- The loop `for _, service := range group.Services { ... }` of
`followGroupLog`, with the current `lines`. -/
def followServices (w : World) :
    List ServiceConfig → List LogLine → List Event →
      (List LogLine × Option GoError) × List Event
  | [], lines, tr => ((lines, none), tr)
  | service :: rest, lines, tr =>
    match followServiceLog w service tr with
    | ((newLines, err), tr) =>
      let lines := lines ++ newLines
      match err with
      | some err => (([], some err), tr)
      | none => followServices w rest lines tr

mutual
/-- The function `followGroupLog`. -/
def followGroupLog (w : World) :
    ServiceGroupConfig → List Event → (List LogLine × Option GoError) × List Event
  | .mk _ groups services, tr =>
    match followGroups w groups [] tr with
    | ((_, some err), tr) => (([], some err), tr)
    | ((lines, none), tr) => followServices w services lines tr
/-- The loop `for _, group := range group.Groups { ... }` of `followGroupLog`,
with the current `lines`. -/
def followGroups (w : World) :
    List ServiceGroupConfig → List LogLine → List Event →
      (List LogLine × Option GoError) × List Event
  | [], lines, tr => ((lines, none), tr)
  | group :: rest, lines, tr =>
    match followGroupLog w group tr with
    | ((newLines, err), tr) =>
      let lines := lines ++ newLines
      match err with
      | some err => (([], some err), tr)
      | none => followGroups w rest lines tr
end

/-! ## `printMessage` -/

/-- The colour attributes of `github.com/fatih/color` that `printMessage` sets. -/
inductive Color where
  | FgHiYellow
  | FgRed
  | FgYellow
deriving DecidableEq, Repr

/-- What `printMessage` sends to the terminal, call by call. -/
inductive Output where
  /-- Records a call of the builtin `print`, with its argument. -/
  | print (s : String)
  /-- Records `color.Set`. -/
  | colorSet (c : Color)
  /-- Records `color.Unset()`. -/
  | colorUnset
  /-- Records a call of `fmt.Printf`, with the formatted text. -/
  | printf (s : String)
deriving DecidableEq, Repr

/-- The predicate `unicode.IsSpace` of the Go standard library, on code points. -/
def unicodeIsSpace (r : Char) : Bool :=
  let n := r.toNat
  if n ≤ 0xFF then
    n = 0x09 || n = 0x0A || n = 0x0B || n = 0x0C || n = 0x0D || n = 0x20 || n = 0x85 || n = 0xA0
  else
    n = 0x1680 || (0x2000 ≤ n && n ≤ 0x200A) || n = 0x2028 || n = 0x2029 || n = 0x202F
      || n = 0x205F || n = 0x3000

/-- The function `strings.TrimSpace` on the code points of a string: leading
and trailing white space removed. -/
def trimSpaceChars (s : List Char) : List Char :=
  ((s.dropWhile unicodeIsSpace).reverse.dropWhile unicodeIsSpace).reverse

/-- The function `strings.TrimSpace` of the Go standard library. -/
def TrimSpace (s : String) : String := String.mk (trimSpaceChars s.data)

/-- The function `printMessage`: the terminal operations of one call. -/
def printMessage (logMessage : LogLine) (multiple : Bool) : List Output :=
  let message := TrimSpace logMessage.Message
  if message.utf8ByteSize = 0 then
    []
  else
    (if multiple then
      [Output.print "[", Output.colorSet Color.FgHiYellow, Output.print logMessage.Name]
        ++ (if logMessage.Stream = "messages" then [Output.print " (edward)"] else [])
        ++ [Output.colorUnset, Output.print "]: "]
    else [])
    ++ (if logMessage.Stream = "stderr" then [Output.colorSet Color.FgRed] else [])
    ++ (if logMessage.Stream = "messages" then [Output.colorSet Color.FgYellow] else [])
    ++ [Output.printf (TrimSpace message ++ "\n"), Output.colorUnset]

/-! ## `doLog` -/

/-- The loop `for _, sg := range sgs { switch v := sg.(type) ... }` of `doLog`,
with the current `lines`; `.error err` is `return err`. -/
def doLogScan (w : World) :
    List ServiceOrGroup → List LogLine → List Event →
      Except GoError (List LogLine) × List Event
  | [], lines, tr => (.ok lines, tr)
  | .service v :: rest, lines, tr =>
    match followServiceLog w v tr with
    | ((_, some err), tr) => (.error err, tr)
    | ((newLines, none), tr) => doLogScan w rest (lines ++ newLines) tr
  | .group v :: rest, lines, tr =>
    match followGroupLog w v tr with
    | ((_, some err), tr) => (.error err, tr)
    | ((newLines, none), tr) => doLogScan w rest (lines ++ newLines) tr

/-- The loops `for ... { printMessage(line, multiple) }` of `doLog`. -/
def printLoop (multiple : Bool) : List LogLine → List Event → List Event
  | [], tr => tr
  | line :: rest, tr => printLoop multiple rest (tr ++ [Event.printed line multiple])

/-- The function `doLog`, on the arguments `c.Args()`.  The loop over
`logChannel` never ends by itself (the channel is never closed): `received` is
the sequence of values it has received so far, and the result is the error
returned (`none` while the loop is still receiving) with the trace so far. -/
def doLog (w : World) (args : List String) (received : List LogLine) :
    Option GoError × List Event :=
  if args.length = 0 then
    (some (GoError.new "At least one service or group must be specified"), [])
  else
    match w.GetServicesOrGroups args with
    | .error err => (some (GoError.withStack err), [])
    | .ok sgs =>
      match doLogScan w sgs [] [] with
      | (.error err, tr) => (some err, tr)
      | (.ok lines, tr) =>
        let lines := w.SortSort lines
        let tr := printLoop (decide (w.CountServices sgs > 1)) lines tr
        let tr := printLoop (decide (w.CountServices sgs > 1)) received tr
        (none, tr)

/-! ## `sort.Sort` on short slices

The Go standard library, `sort/sort.go`, Go 1.6 to Go 1.18: `Sort(data)` calls
`quickSort(data, 0, n, maxDepth(n))`, whose loop `for b-a > 12` is not entered
on a slice of at most 12 elements, so that only the final block runs: one
ShellSort pass with gap 6, then `insertionSort`. -/

/-- The inner loop of `insertionSort`:
`for j := i; j > a && data.Less(j, j-1); j-- { data.Swap(j, j-1) }`. -/
def insertionInner (a : Nat) : Nat → byTime → byTime
  | 0, data => data
  | j + 1, data =>
    if j + 1 > a && data.Less (j + 1) j then insertionInner a j (data.Swap (j + 1) j)
    else data

/-- The outer loop of `insertionSort`, `for i := a + 1; i < b; i++`, with the
number of iterations left. -/
def insertionOuter (a : Nat) : Nat → Nat → byTime → byTime
  | 0, _, data => data
  | n + 1, i, data => insertionOuter a n (i + 1) (insertionInner a i data)

/-- The function `insertionSort(data, a, b)` of `sort/sort.go`. -/
def insertionSort (data : byTime) (a b : Nat) : byTime :=
  insertionOuter a (b - (a + 1)) (a + 1) data

/-- The ShellSort pass of `quickSort`:
`for i := a + 6; i < b; i++ { if data.Less(i, i-6) { data.Swap(i, i-6) } }`,
with the number of iterations left. -/
def shellPass : Nat → Nat → byTime → byTime
  | 0, _, data => data
  | n + 1, i, data =>
    shellPass n (i + 1) (if data.Less i (i - 6) then data.Swap i (i - 6) else data)

/-- The final block of `quickSort(data, a, b, maxDepth)`, which is all of it
when `b - a ≤ 12`. -/
def quickSortShort (data : byTime) (a b : Nat) : byTime :=
  if b - a > 1 then insertionSort (shellPass (b - (a + 6)) (a + 6) data) a b
  else data

/-- The function `sort.Sort` on a slice of at most 12 elements. -/
def sortShort (data : byTime) : byTime :=
  quickSortShort data 0 data.Len

/-! ## Specification-level definitions -/

/-- The slice after the calls `data.Swap(i, j)` for a list of index pairs, in
order. -/
def applySwaps (data : byTime) : List (Nat × Nat) → byTime
  | [] => data
  | (i, j) :: rest => applySwaps (data.Swap i j) rest

/-- The slice `result` is reached from `data` by calls of `Swap` with indices
below `Len`. -/
def SwapReachable (data result : byTime) : Prop :=
  ∃ swaps : List (Nat × Nat),
    (∀ p ∈ swaps, p.1 < data.Len ∧ p.2 < data.Len) ∧ result = applySwaps data swaps

/-- The documented contract of `sort.Sort`, for `byTime`: it changes the slice
only through calls of `Swap` with indices below `Len`, and afterwards no element
is `Less` than an element before it. -/
def SortContract (sortSort : List LogLine → List LogLine) : Prop :=
  ∀ data : byTime, SwapReachable data (sortSort data) ∧
    ∀ i j : Nat, i < j → j < byTime.Len (sortSort data) →
      byTime.Less (sortSort data) j i = false

mutual
/-- The Source Resolver of the specification, on a group: "recursively resolve
nested groups first, in the order listed, depth-first; then append the group's
direct services, in the order listed". -/
def groupSources : ServiceGroupConfig → List ServiceConfig
  | .mk _ groups services => groupsSources groups ++ services
/-- The sources of a list of groups, in the order listed. -/
def groupsSources : List ServiceGroupConfig → List ServiceConfig
  | [] => []
  | group :: rest => groupSources group ++ groupsSources rest
end

/-- The Source Resolver of the specification, on a selection: the sources of
its items, in the order given. -/
def selectionSources : List ServiceOrGroup → List ServiceConfig
  | [] => []
  | .service v :: rest => v :: selectionSources rest
  | .group v :: rest => groupSources v ++ selectionSources rest

/-- The Historical Reader of the specification run over a flat list of sources,
one after the other: the entries are concatenated in scan order and the first
failure ends the scan with no entries. -/
def scanSources (w : World) :
    List ServiceConfig → List LogLine → List Event →
      (List LogLine × Option GoError) × List Event
  | [], lines, tr => ((lines, none), tr)
  | s :: rest, lines, tr =>
    match followServiceLog w s tr with
    | ((_, some err), tr) => (([], some err), tr)
    | ((newLines, none), tr) => scanSources w rest (lines ++ newLines) tr

/-- The entries one source's historical read returns. -/
def sourceLines (w : World) (s : ServiceConfig) : List LogLine :=
  (followServiceLog w s []).1.1

/-- The error one source's historical read returns. -/
def sourceError (w : World) (s : ServiceConfig) : Option GoError :=
  (followServiceLog w s []).1.2

/-- The events one source's historical read produces. -/
def sourceEvents (w : World) (s : ServiceConfig) : List Event :=
  (followServiceLog w s []).2

/-- The lines printed by `printMessage`, in order of the calls. -/
def printedLines : List Event → List LogLine
  | [] => []
  | Event.printed line _ :: rest => line :: printedLines rest
  | _ :: rest => printedLines rest

/-- The order `sort.Sort` establishes for `byTime`: timestamps do not decrease. -/
def TimeSorted (l : List LogLine) : Prop :=
  l.Pairwise (fun p q => p.Time ≤ q.Time)

/-- The texts passed to `fmt.Printf`, in order. -/
def printfTexts : List Output → List String
  | [] => []
  | Output.printf s :: rest => s :: printfTexts rest
  | _ :: rest => printfTexts rest

/-- The operations of `printMessage` before the message itself: the source
label when there are several sources, and the colour of the stream. -/
def messageHeader (logMessage : LogLine) (multiple : Bool) : List Output :=
  (if multiple then
    [Output.print "[", Output.colorSet Color.FgHiYellow, Output.print logMessage.Name]
      ++ (if logMessage.Stream = "messages" then [Output.print " (edward)"] else [])
      ++ [Output.colorUnset, Output.print "]: "]
  else [])
  ++ (if logMessage.Stream = "stderr" then [Output.colorSet Color.FgRed] else [])
  ++ (if logMessage.Stream = "messages" then [Output.colorSet Color.FgYellow] else [])

/-- The followers started, in order, each with its skip count. -/
def startedFollowers : List Event → List (ServiceConfig × Int)
  | [] => []
  | Event.started service skipLines :: rest => (service, skipLines) :: startedFollowers rest
  | _ :: rest => startedFollowers rest

/-! ## A concrete session

Two services `A` and `B` with the run logs of the specification's scenario (`A`
holds three lines stamped 1, 2, 3 and `B` two lines stamped 0 and 4), a service
`C` whose run log holds a line that does not parse, a service `T` whose run log
holds entries with equal timestamps, and a service `N` without launch command. -/

/-- A parser for the lines of the concrete session. -/
def demoParse : String → Except GoError LogLine
  | "a1" => .ok ⟨"A", 1, "stdout", "a one"⟩
  | "a2" => .ok ⟨"A", 2, "stdout", "a two"⟩
  | "a3" => .ok ⟨"A", 3, "stderr", "a three"⟩
  | "a5" => .ok ⟨"A", 5, "stdout", "a five"⟩
  | "a6" => .ok ⟨"A", 6, "stdout", "a six"⟩
  | "b0" => .ok ⟨"B", 0, "messages", "b zero"⟩
  | "b4" => .ok ⟨"B", 4, "stdout", "b four"⟩
  | "t1" => .ok ⟨"T", 2, "stdout", "first of two equal"⟩
  | "t2" => .ok ⟨"T", 2, "stdout", "second of two equal"⟩
  | "t3" => .ok ⟨"T", 3, "stdout", "three"⟩
  | "t4" => .ok ⟨"T", 3, "stdout", "three"⟩
  | "t5" => .ok ⟨"T", 3, "stdout", "three"⟩
  | "t6" => .ok ⟨"T", 3, "stdout", "three"⟩
  | "t7" => .ok ⟨"T", 1, "stdout", "one"⟩
  | _ => .error (GoError.new "unparseable line")

def svcA : ServiceConfig := ⟨"A", ⟨"run-a"⟩, "a.log"⟩

def svcB : ServiceConfig := ⟨"B", ⟨"run-b"⟩, "b.log"⟩

def svcC : ServiceConfig := ⟨"C", ⟨"run-c"⟩, "c.log"⟩

def svcT : ServiceConfig := ⟨"T", ⟨"run-t"⟩, "t.log"⟩

def svcN : ServiceConfig := ⟨"N", ⟨""⟩, "n.log"⟩

/-- The parses of the lines of `A` at scan time. -/
def demoHistoryA : List LogLine :=
  [⟨"A", 1, "stdout", "a one"⟩, ⟨"A", 2, "stdout", "a two"⟩, ⟨"A", 3, "stderr", "a three"⟩]

/-- The parses of the lines of `A` written after the scan. -/
def demoLiveA : List LogLine :=
  [⟨"A", 5, "stdout", "a five"⟩, ⟨"A", 6, "stdout", "a six"⟩]

/-- The group of the specification's scenario: `G` contains the nested group
`H` (with the service `A`) and the direct service `B`. -/
def groupG : ServiceGroupConfig := .mk "G" [.mk "H" [] [svcA]] [svcB]

/-- A group whose second source cannot be read. -/
def groupBad : ServiceGroupConfig := .mk "Bad" [] [svcA, svcC, svcB]

/-- The run logs at scan time. -/
def demoOpen : String → Except GoError ScanView
  | "a.log" => .ok ⟨["a1", "a2", "a3"], none⟩
  | "b.log" => .ok ⟨["b0", "b4"], none⟩
  | "c.log" => .ok ⟨["a1", "???", "a2"], none⟩
  | "t.log" => .ok ⟨["t1", "t2", "t3", "t4", "t5", "t6", "t7"], none⟩
  | _ => .error (GoError.new "no such file")

/-- The run logs as the followers see them, re-read from the beginning. -/
def demoTailFile : String → Except GoError (List String)
  | "a.log" => .ok ["a1", "a2", "a3", "a5", "a6"]
  | "b.log" => .ok ["b0", "b4"]
  | "c.log" => .ok ["a1", "???", "a2", "a3", "a5", "a6", "???", "b4"]
  | _ => .error (GoError.new "no such file")

/-- The configuration lookup of the concrete session. -/
def demoGetServicesOrGroups : List String → Except GoError (List ServiceOrGroup)
  | ["A"] => .ok [.service svcA]
  | ["A", "B"] => .ok [.service svcA, .service svcB]
  | ["G"] => .ok [.group groupG]
  | ["A", "C", "B"] => .ok [.service svcA, .service svcC, .service svcB]
  | ["Bad"] => .ok [.group groupBad]
  | ["T"] => .ok [.service svcT]
  | ["N"] => .ok [.service svcN]
  | _ => .error (GoError.new "service or group not found")

/-- The concrete session, with `sort.Sort` as it runs on short slices. -/
def demoWorld : World where
  ParseLogLine := demoParse
  Open := demoOpen
  TailFile := demoTailFile
  GetServicesOrGroups := demoGetServicesOrGroups
  CountServices := fun sgs => (selectionSources sgs).length
  SortSort := sortShort

/-- Stability of the historical merge as the specification words it: for every
timestamp, the entries with that timestamp come in the same relative order
after the sort as before it. -/
def StableMerge (pre post : List LogLine) : Prop :=
  ∀ t : Int, post.filter (fun x => decide (x.Time = t)) = pre.filter (fun x => decide (x.Time = t))

/-- A consequence of the order that C5 asks of a trace: if no follower is
started until every historical scan has finished, then every start of a
follower comes after every opening of a run log for a historical scan. -/
def FollowersStartAfterAllScans (tr : List Event) : Prop :=
  ∀ (i j : Nat) (service : ServiceConfig) (skipLines : Int) (runLog : String),
    tr[i]? = some (Event.started service skipLines) →
    tr[j]? = some (Event.opened runLog) → j < i

/-! ## The scanning loops -/

theorem scanLoop_ok (parse : String → Except GoError LogLine) :
    ∀ (lines : List String) (vs acc : List LogLine) (n : Int),
      lines.map parse = vs.map Except.ok →
      scanLoop parse lines acc n = .ok (acc ++ vs, n + lines.length)
  | [], vs, acc, n, h => by
    cases vs with
    | nil => simp [scanLoop]
    | cons v vs => simp at h
  | l :: ls, vs, acc, n, h => by
    cases vs with
    | nil => simp at h
    | cons v vs =>
      simp only [List.map_cons, List.cons.injEq] at h
      obtain ⟨h1, h2⟩ := h
      have ih := scanLoop_ok parse ls vs (acc ++ [v]) (n + 1) h2
      simp only [scanLoop, h1, ih, List.append_assoc, List.singleton_append, List.length_cons]
      congr 2
      push_cast
      ring

theorem scanLoop_error (parse : String → Except GoError LogLine) :
    ∀ (good : List String) (bad : String) (rest : List String) (vs acc : List LogLine)
      (n : Int) (err : GoError),
      good.map parse = vs.map Except.ok → parse bad = .error err →
      scanLoop parse (good ++ bad :: rest) acc n = .error (GoError.withStack err)
  | [], bad, rest, vs, acc, n, err, _, hb => by
    simp [scanLoop, hb]
  | l :: ls, bad, rest, vs, acc, n, err, h, hb => by
    cases vs with
    | nil => simp at h
    | cons v vs =>
      simp only [List.map_cons, List.cons.injEq] at h
      obtain ⟨h1, h2⟩ := h
      have ih := scanLoop_error parse ls bad rest vs (acc ++ [v]) (n + 1) err h2 hb
      simp only [List.cons_append, scanLoop, h1]
      exact ih

/-- Every list of lines splits into a longest parseable beginning and a
remainder that is empty or starts with a line that fails to parse. -/
theorem exists_parse_split (parse : String → Except GoError LogLine) :
    ∀ lines : List String, ∃ (good rest : List String) (vs : List LogLine),
      lines = good ++ rest ∧ good.map parse = vs.map Except.ok ∧
      (rest = [] ∨ ∃ bad tl err, rest = bad :: tl ∧ parse bad = .error err)
  | [] => ⟨[], [], [], rfl, rfl, Or.inl rfl⟩
  | l :: ls => by
    obtain ⟨good, rest, vs, h1, h2, h3⟩ := exists_parse_split parse ls
    cases hp : parse l with
    | error err => exact ⟨[], l :: ls, [], rfl, rfl, Or.inr ⟨l, ls, err, rfl, hp⟩⟩
    | ok v =>
      refine ⟨l :: good, rest, v :: vs, by simp [h1], by simp [hp, h2], h3⟩

/-- A line that fails to parse splits the lines at the first such line. -/
theorem exists_first_failure (parse : String → Except GoError LogLine) (lines : List String)
    (h : ∃ l ∈ lines, ∃ err, parse l = .error err) :
    ∃ (good : List String) (bad : String) (tl : List String) (vs : List LogLine) (err : GoError),
      lines = good ++ bad :: tl ∧ good.map parse = vs.map Except.ok ∧ parse bad = .error err := by
  obtain ⟨good, rest, vs, h1, h2, h3⟩ := exists_parse_split parse lines
  rcases h3 with h3 | ⟨bad, tl, err, h3, h4⟩
  · exfalso
    obtain ⟨l, hl, err, he⟩ := h
    subst h3
    simp only [List.append_nil] at h1
    subst h1
    have : parse l ∈ List.map parse lines := List.mem_map_of_mem parse hl
    rw [h2, he] at this
    simp at this
  · exact ⟨good, bad, tl, vs, err, by rw [h1, h3], h2, h4⟩

/-- The trace is only ever extended by `followServiceLog`, and what it returns
does not depend on the trace so far. -/
theorem followServiceLog_trace (w : World) (s : ServiceConfig) (tr : List Event) :
    followServiceLog w s tr = ((sourceLines w s, sourceError w s), tr ++ sourceEvents w s) := by
  unfold sourceLines sourceError sourceEvents followServiceLog
  by_cases hl : s.Commands.Launch = ""
  · simp [hl]
  · simp only [hl, if_false, List.nil_append]
    cases w.Open s.RunLog with
    | error err => simp
    | ok logFile =>
      simp only
      cases scanLoop w.ParseLogLine logFile.lines [] 0 with
      | error err => simp
      | ok r =>
        obtain ⟨initialLines, lineCount⟩ := r
        simp only
        cases logFile.scanErr with
        | some err => simp
        | none => simp

/-- A successful historical read: what is returned and what is recorded. -/
theorem followServiceLog_ok (w : World) (s : ServiceConfig) (tr : List Event)
    (lines : List String) (vs : List LogLine)
    (hlaunch : s.Commands.Launch ≠ "")
    (hopen : w.Open s.RunLog = .ok ⟨lines, none⟩)
    (hparse : lines.map w.ParseLogLine = vs.map Except.ok) :
    followServiceLog w s tr =
      ((vs, none), tr ++ [Event.opened s.RunLog, Event.started s lines.length]) := by
  unfold followServiceLog
  simp only [hlaunch, if_false, hopen]
  rw [scanLoop_ok w.ParseLogLine lines vs [] 0 hparse]
  simp

/-- A historical read that meets a line it cannot parse. -/
theorem followServiceLog_parse_error (w : World) (s : ServiceConfig) (tr : List Event)
    (logFile : ScanView) (good : List String) (bad : String) (tl : List String)
    (vs : List LogLine) (err : GoError)
    (hlaunch : s.Commands.Launch ≠ "")
    (hopen : w.Open s.RunLog = .ok logFile)
    (hsplit : logFile.lines = good ++ bad :: tl)
    (hgood : good.map w.ParseLogLine = vs.map Except.ok)
    (hbad : w.ParseLogLine bad = .error err) :
    followServiceLog w s tr =
      (([], some (GoError.withStack err)), tr ++ [Event.opened s.RunLog]) := by
  unfold followServiceLog
  simp only [hlaunch, if_false, hopen, hsplit]
  rw [scanLoop_error w.ParseLogLine good bad tl vs [] 0 err hgood hbad]

/-! ## The follower loop -/

/-- While lines are still being skipped the loop only counts: following with
`linesSkipped` lines already skipped is following the stream without the lines
still to skip. -/
theorem followLoop_skip (parse : String → Except GoError LogLine) (skipLines : Int) :
    ∀ (L : List String) (linesSkipped : Int) (sent : List LogLine),
      followLoop parse skipLines L linesSkipped sent =
        followLoop parse skipLines (L.drop (skipLines - linesSkipped).toNat)
          (max linesSkipped skipLines) sent
  | [], linesSkipped, sent => by simp [followLoop]
  | text :: rest, linesSkipped, sent => by
    by_cases h : linesSkipped < skipLines
    · have ih := followLoop_skip parse skipLines rest (linesSkipped + 1) sent
      have e1 : (skipLines - linesSkipped).toNat = (skipLines - (linesSkipped + 1)).toNat + 1 := by
        omega
      have e2 : max (linesSkipped + 1) skipLines = max linesSkipped skipLines := by
        rw [max_eq_right (by omega), max_eq_right (by omega)]
      rw [e1, List.drop_succ_cons, ← e2, ← ih]
      simp [followLoop, h]
    · have e1 : (skipLines - linesSkipped).toNat = 0 := by omega
      have e2 : max linesSkipped skipLines = linesSkipped := max_eq_left (by omega)
      rw [e1, e2, List.drop_zero]

/-- Once the skip count is reached, parseable lines are written in order. -/
theorem followLoop_deliver_ok (parse : String → Except GoError LogLine) (skipLines : Int) :
    ∀ (good : List String) (vs : List LogLine) (linesSkipped : Int) (sent : List LogLine),
      ¬ linesSkipped < skipLines → good.map parse = vs.map Except.ok →
      followLoop parse skipLines good linesSkipped sent = (sent ++ vs, none)
  | [], vs, linesSkipped, sent, _, h => by
    cases vs with
    | nil => simp [followLoop]
    | cons v vs => simp at h
  | l :: ls, vs, linesSkipped, sent, hk, h => by
    cases vs with
    | nil => simp at h
    | cons v vs =>
      simp only [List.map_cons, List.cons.injEq] at h
      obtain ⟨h1, h2⟩ := h
      have ih := followLoop_deliver_ok parse skipLines ls vs linesSkipped (sent ++ [v]) hk h2
      simp only [followLoop, hk, if_false, h1, ih, List.append_assoc, List.singleton_append]

/-- Once the skip count is reached, the loop ends at the first line that fails
to parse, having written the parses of the lines before it. -/
theorem followLoop_deliver_error (parse : String → Except GoError LogLine) (skipLines : Int) :
    ∀ (good : List String) (bad : String) (tl : List String) (vs : List LogLine)
      (linesSkipped : Int) (sent : List LogLine) (err : GoError),
      ¬ linesSkipped < skipLines → good.map parse = vs.map Except.ok →
      parse bad = .error err →
      followLoop parse skipLines (good ++ bad :: tl) linesSkipped sent =
        (sent ++ vs, some (GoError.withStack err))
  | [], bad, tl, vs, linesSkipped, sent, err, hk, h, hb => by
    cases vs with
    | nil => simp [followLoop, hk, hb]
    | cons v vs => simp at h
  | l :: ls, bad, tl, vs, linesSkipped, sent, err, hk, h, hb => by
    cases vs with
    | nil => simp at h
    | cons v vs =>
      simp only [List.map_cons, List.cons.injEq] at h
      obtain ⟨h1, h2⟩ := h
      have ih := followLoop_deliver_error parse skipLines ls bad tl vs linesSkipped
        (sent ++ [v]) err hk h2 hb
      simp only [List.cons_append, followLoop, hk, if_false, h1]
      refine ih.trans ?_
      simp

/-- Once the skip count is reached, the loop depends on the parser only through
its values on the lines received. -/
theorem followLoop_congr (p q : String → Except GoError LogLine) (skipLines : Int) :
    ∀ (L : List String) (linesSkipped : Int) (sent : List LogLine),
      ¬ linesSkipped < skipLines → (∀ l ∈ L, p l = q l) →
      followLoop p skipLines L linesSkipped sent = followLoop q skipLines L linesSkipped sent
  | [], _, _, _, _ => by simp [followLoop]
  | l :: ls, linesSkipped, sent, hk, h => by
    have hl : p l = q l := h l (List.mem_cons_self l ls)
    have hls : ∀ x ∈ ls, p x = q x := fun x hx => h x (List.mem_cons_of_mem l hx)
    simp only [followLoop, hk, if_false, hl]
    cases q l with
    | error err => rfl
    | ok v => exact followLoop_congr p q skipLines ls linesSkipped (sent ++ [v]) hk hls

/-! ## Traversal of groups and selections -/

theorem followServices_eq_scanSources (w : World) :
    ∀ (services : List ServiceConfig) (lines : List LogLine) (tr : List Event),
      followServices w services lines tr = scanSources w services lines tr
  | [], _, _ => rfl
  | s :: rest, lines, tr => by
    simp only [followServices, scanSources]
    rcases h : followServiceLog w s tr with ⟨⟨newLines, err⟩, tr2⟩
    cases err with
    | some e => rfl
    | none => exact followServices_eq_scanSources w rest (lines ++ newLines) tr2

/-- Scanning a concatenation is scanning its first part and, when that
succeeds, its second part from the entries and trace reached. -/
theorem scanSources_append (w : World) :
    ∀ (xs ys : List ServiceConfig) (lines : List LogLine) (tr : List Event),
      scanSources w (xs ++ ys) lines tr =
        match scanSources w xs lines tr with
        | ((_, some err), tr2) => (([], some err), tr2)
        | ((lines2, none), tr2) => scanSources w ys lines2 tr2
  | [], _, _, _ => rfl
  | s :: rest, ys, lines, tr => by
    simp only [List.cons_append, scanSources]
    rcases h : followServiceLog w s tr with ⟨⟨newLines, err⟩, tr2⟩
    cases err with
    | some e => rfl
    | none => exact scanSources_append w rest ys (lines ++ newLines) tr2

/-- A failed scan returns no entries. -/
theorem scanSources_error_lines (w : World) :
    ∀ (xs : List ServiceConfig) (lines : List LogLine) (tr : List Event) (err : GoError),
      (scanSources w xs lines tr).1.2 = some err → (scanSources w xs lines tr).1.1 = []
  | [], _, _, _, h => by simp [scanSources] at h
  | s :: rest, lines, tr, err, h => by
    simp only [scanSources] at h ⊢
    rcases hs : followServiceLog w s tr with ⟨⟨newLines, e⟩, tr2⟩
    rw [hs] at h
    cases e with
    | some e => rfl
    | none => exact scanSources_error_lines w rest (lines ++ newLines) tr2 err h

/-- The entries accumulated so far are kept in front of those a scan adds. -/
theorem scanSources_lines (w : World) :
    ∀ (xs : List ServiceConfig) (lines : List LogLine) (tr : List Event),
      scanSources w xs lines tr =
        match scanSources w xs [] tr with
        | ((_, some err), tr2) => (([], some err), tr2)
        | ((newLines, none), tr2) => ((lines ++ newLines, none), tr2)
  | [], lines, tr => by simp [scanSources]
  | s :: rest, lines, tr => by
    simp only [scanSources]
    rcases hs : followServiceLog w s tr with ⟨⟨newLines, e⟩, tr2⟩
    cases e with
    | some e => rfl
    | none =>
      simp only [List.nil_append]
      rw [scanSources_lines w rest (lines ++ newLines) tr2,
        scanSources_lines w rest newLines tr2]
      rcases scanSources w rest [] tr2 with ⟨⟨more, e⟩, tr3⟩
      cases e with
      | some e => rfl
      | none => simp

mutual
/-- The traversal `followGroupLog` performs is the scan of the group's sources
in the order of the Source Resolver. -/
theorem followGroupLog_eq_scanSources (w : World) :
    ∀ (g : ServiceGroupConfig) (tr : List Event),
      followGroupLog w g tr = scanSources w (groupSources g) [] tr
  | .mk _ groups services, tr => by
    rw [followGroupLog, groupSources, scanSources_append,
      followGroups_eq_scanSources w groups [] tr]
    rcases scanSources w (groupsSources groups) [] tr with ⟨⟨lines, e⟩, tr2⟩
    cases e with
    | some e => rfl
    | none => exact followServices_eq_scanSources w services lines tr2
/-- The loop over the nested groups, likewise. -/
theorem followGroups_eq_scanSources (w : World) :
    ∀ (gs : List ServiceGroupConfig) (lines : List LogLine) (tr : List Event),
      followGroups w gs lines tr = scanSources w (groupsSources gs) lines tr
  | [], _, _ => by rw [followGroups, groupsSources, scanSources]
  | g :: rest, lines, tr => by
    rw [followGroups, groupsSources, scanSources_append,
      followGroupLog_eq_scanSources w g tr, scanSources_lines w (groupSources g) lines tr]
    rcases scanSources w (groupSources g) [] tr with ⟨⟨newLines, e⟩, tr2⟩
    cases e with
    | some e => rfl
    | none => exact followGroups_eq_scanSources w rest (lines ++ newLines) tr2
end

/-- The scanning loop of `doLog` is the scan of the selection's sources in the
order of the Source Resolver. -/
theorem doLogScan_eq_scanSources (w : World) :
    ∀ (sgs : List ServiceOrGroup) (lines : List LogLine) (tr : List Event),
      doLogScan w sgs lines tr =
        match scanSources w (selectionSources sgs) lines tr with
        | ((_, some err), tr2) => (.error err, tr2)
        | ((lines2, none), tr2) => (.ok lines2, tr2)
  | [], _, _ => rfl
  | .service v :: rest, lines, tr => by
    simp only [doLogScan, selectionSources, scanSources]
    rcases followServiceLog w v tr with ⟨⟨newLines, e⟩, tr2⟩
    cases e with
    | some e => rfl
    | none => exact doLogScan_eq_scanSources w rest (lines ++ newLines) tr2
  | .group v :: rest, lines, tr => by
    simp only [doLogScan, selectionSources]
    rw [scanSources_append, followGroupLog_eq_scanSources w v tr,
      scanSources_lines w (groupSources v) lines tr]
    rcases scanSources w (groupSources v) [] tr with ⟨⟨newLines, e⟩, tr2⟩
    cases e with
    | some e => rfl
    | none => exact doLogScan_eq_scanSources w rest (lines ++ newLines) tr2

/-- A scan in which every source is read successfully returns the entries of
the sources concatenated in scan order, and records their events in that order. -/
theorem scanSources_ok (w : World) :
    ∀ (xs : List ServiceConfig) (lines : List LogLine) (tr : List Event),
      (∀ s ∈ xs, sourceError w s = none) →
      scanSources w xs lines tr =
        ((lines ++ xs.flatMap (sourceLines w), none), tr ++ xs.flatMap (sourceEvents w))
  | [], lines, tr, _ => by simp [scanSources]
  | s :: rest, lines, tr, h => by
    have hs : sourceError w s = none := h s (List.mem_cons_self s rest)
    have hrest : ∀ x ∈ rest, sourceError w x = none :=
      fun x hx => h x (List.mem_cons_of_mem s hx)
    simp only [scanSources]
    rw [followServiceLog_trace w s tr, hs]
    simp only
    rw [scanSources_ok w rest _ _ hrest]
    simp [List.flatMap_cons, List.append_assoc]

/-- A scan ends at the first source whose read fails, with that source's error,
no entries, and the events of the sources up to and including it. -/
theorem scanSources_fail (w : World) (pre : List ServiceConfig) (s : ServiceConfig)
    (post : List ServiceConfig) (lines : List LogLine) (tr : List Event) (err : GoError)
    (hpre : ∀ x ∈ pre, sourceError w x = none) (hs : sourceError w s = some err) :
    scanSources w (pre ++ s :: post) lines tr =
      (([], some err), tr ++ pre.flatMap (sourceEvents w) ++ sourceEvents w s) := by
  rw [scanSources_append, scanSources_ok w pre lines tr hpre]
  simp only [scanSources]
  rw [followServiceLog_trace w s _, hs]

/-! ## `sort.Sort` on short slices meets the contract -/

/-- Overwriting one position with a value and putting the old value in front
rearranges the list with the value in front. -/
theorem cons_set_perm (h : LogLine) :
    ∀ (t : List LogLine) (j : Nat), j < t.length →
      (t.getD j default :: t.set j h).Perm (h :: t)
  | [], j, hj => by simp at hj
  | y :: t, 0, _ => by
    simpa using List.Perm.swap h y t
  | y :: t, j + 1, hj => by
    have hj2 : j < t.length := by simpa using hj
    have ih := cons_set_perm h t j hj2
    simp only [List.getD_cons_succ, List.set_cons_succ]
    exact (List.Perm.swap y (t.getD j default) (t.set j h)).trans
      ((ih.cons y).trans (List.Perm.swap h y t))

/-- The method `Swap` rearranges the slice when both indices are in range. -/
theorem swap_perm :
    ∀ (a : byTime) (i j : Nat), i < a.length → j < a.length → (a.Swap i j).Perm a
  | [], i, _, hi, _ => by simp at hi
  | h :: t, 0, 0, _, _ => by simp [byTime.Swap]
  | h :: t, 0, j + 1, _, hj => by
    have hj2 : j < t.length := by simpa using hj
    simpa [byTime.Swap] using cons_set_perm h t j hj2
  | h :: t, i + 1, 0, hi, _ => by
    have hi2 : i < t.length := by simpa using hi
    simpa [byTime.Swap] using cons_set_perm h t i hi2
  | h :: t, i + 1, j + 1, hi, hj => by
    have hi2 : i < t.length := by simpa using hi
    have hj2 : j < t.length := by simpa using hj
    have ih := swap_perm t i j hi2 hj2
    simpa [byTime.Swap] using ih

/-- Swapping two neighbours, on a slice written out around them. -/
theorem swap_adjacent (y x : LogLine) (rest : List LogLine) :
    ∀ L : List LogLine,
      byTime.Swap (L ++ y :: x :: rest) (L.length + 1) L.length = L ++ x :: y :: rest
  | [] => by simp [byTime.Swap]
  | h :: L => by
    have ih := swap_adjacent y x rest L
    simp only [byTime.Swap] at ih ⊢
    simpa using ih

/-- The comparison of two neighbours, on a slice written out around them. -/
theorem less_adjacent (y x : LogLine) (rest : List LogLine) :
    ∀ L : List LogLine,
      byTime.Less (L ++ y :: x :: rest) (L.length + 1) L.length = decide (x.Time < y.Time)
  | [] => by simp [byTime.Less]
  | h :: L => by
    have ih := less_adjacent y x rest L
    simp only [byTime.Less] at ih ⊢
    simpa using ih

/-- The inner loop of `insertionSort` moves the element at index `j` down into
the sorted elements before it, past the larger elements `M` it has already
passed. -/
theorem insertionInner_spec :
    ∀ (j : Nat) (L : List LogLine) (x : LogLine) (M T : List LogLine),
      L.length = j → TimeSorted (L ++ M) → (∀ m ∈ M, x.Time < m.Time) →
      ∃ S, insertionInner 0 j (L ++ x :: (M ++ T)) = S ++ T ∧ TimeSorted S ∧
        S.Perm (L ++ x :: M)
  | 0, L, x, M, T, hL, hs, hM => by
    have hnil : L = [] := List.length_eq_zero.mp hL
    subst hnil
    refine ⟨x :: M, by simp [insertionInner], ?_, List.Perm.refl _⟩
    simp only [List.nil_append] at hs
    exact List.pairwise_cons.mpr ⟨fun m hm => le_of_lt (hM m hm), hs⟩
  | j + 1, L, x, M, T, hL, hs, hM => by
    rcases List.eq_nil_or_concat L with hnil | ⟨L2, y, hcat⟩
    · subst hnil
      simp at hL
    · rw [List.concat_eq_append] at hcat
      subst hcat
      have hL2 : L2.length = j := by simpa using hL
      have hdata : L2 ++ [y] ++ x :: (M ++ T) = L2 ++ y :: x :: (M ++ T) := by simp
      rw [hdata]
      unfold insertionInner
      rw [← hL2, less_adjacent y x (M ++ T) L2]
      by_cases hlt : x.Time < y.Time
      · have hcond : (decide (L2.length + 1 > 0) && decide (x.Time < y.Time)) = true := by
          simp [hlt]
        rw [if_pos hcond, swap_adjacent y x (M ++ T) L2]
        have hs2 : TimeSorted (L2 ++ (y :: M)) := by
          have : L2 ++ [y] ++ M = L2 ++ (y :: M) := by simp
          rw [← this]
          exact hs
        have hM2 : ∀ m ∈ y :: M, x.Time < m.Time := by
          intro m hm
          rcases List.mem_cons.mp hm with rfl | hm
          · exact hlt
          · exact hM m hm
        obtain ⟨S, h1, h2, h3⟩ := insertionInner_spec L2.length L2 x (y :: M) T rfl hs2 hM2
        refine ⟨S, ?_, h2, h3.trans ?_⟩
        · rw [← h1]
          simp
        · have : L2 ++ [y] ++ x :: M = L2 ++ y :: x :: M := by simp
          rw [this]
          exact List.Perm.append_left L2 (List.Perm.swap y x M)
      · have hcond : ¬ ((decide (L2.length + 1 > 0) && decide (x.Time < y.Time)) = true) := by
          simp [hlt]
        rw [if_neg hcond]
        refine ⟨L2 ++ [y] ++ x :: M, by simp, ?_, List.Perm.refl _⟩
        have hyx : y.Time ≤ x.Time := not_lt.mp hlt
        unfold TimeSorted at hs ⊢
        rw [List.pairwise_append] at hs ⊢
        obtain ⟨hs1, hs2, hs3⟩ := hs
        refine ⟨hs1, ?_, ?_⟩
        · exact List.pairwise_cons.mpr ⟨fun m hm => le_of_lt (hM m hm), hs2⟩
        · intro p hp q hq
          rcases List.mem_cons.mp hq with rfl | hq
          · have hpy : p.Time ≤ y.Time := by
              rw [List.pairwise_append] at hs1
              rcases List.mem_append.mp hp with hp | hp
              · exact hs1.2.2 p hp y (by simp)
              · have : p = y := by simpa using hp
                rw [this]
            exact le_trans hpy hyx
          · exact hs3 p hp q hq

/-- The outer loop of `insertionSort`, started with a sorted beginning `S` and
one iteration per remaining element, sorts the slice. -/
theorem insertionOuter_spec :
    ∀ (T S : List LogLine), TimeSorted S →
      TimeSorted (insertionOuter 0 T.length S.length (S ++ T)) ∧
        (insertionOuter 0 T.length S.length (S ++ T)).Perm (S ++ T)
  | [], S, hS => by
    simpa [insertionOuter] using hS
  | x :: T, S, hS => by
    have hS0 : TimeSorted (S ++ []) := by simpa using hS
    obtain ⟨S2, h1, h2, h3⟩ :=
      insertionInner_spec S.length S x [] T rfl hS0 (by simp)
    simp only [List.nil_append] at h1
    have hlen : S2.length = S.length + 1 := by
      have := h3.length_eq
      simpa using this
    simp only [List.length_cons, insertionOuter]
    rw [h1, ← hlen]
    obtain ⟨ih1, ih2⟩ := insertionOuter_spec T S2 h2
    refine ⟨ih1, ih2.trans ?_⟩
    have : S ++ x :: T = (S ++ [x]) ++ T := by simp
    rw [this]
    exact List.Perm.append_right T h3

theorem swap_length (a : byTime) (i j : Nat) : (a.Swap i j).length = a.length := by
  simp [byTime.Swap]

theorem swapReachable_refl (data : byTime) : SwapReachable data data :=
  ⟨[], by simp, rfl⟩

theorem applySwaps_length :
    ∀ (swaps : List (Nat × Nat)) (data : byTime), (applySwaps data swaps).length = data.length
  | [], _ => rfl
  | (i, j) :: rest, data => by
    rw [applySwaps, applySwaps_length rest, swap_length]

theorem applySwaps_append :
    ∀ (s1 s2 : List (Nat × Nat)) (data : byTime),
      applySwaps data (s1 ++ s2) = applySwaps (applySwaps data s1) s2
  | [], _, _ => rfl
  | (i, j) :: rest, s2, data => by
    rw [List.cons_append, applySwaps, applySwaps, applySwaps_append rest s2]

theorem swapReachable_length_eq {data result : byTime} (h : SwapReachable data result) :
    result.length = data.length := by
  obtain ⟨swaps, _, h2⟩ := h
  rw [h2, applySwaps_length]

theorem swapReachable_trans {d1 d2 d3 : byTime} (h12 : SwapReachable d1 d2)
    (h23 : SwapReachable d2 d3) : SwapReachable d1 d3 := by
  have hlen := swapReachable_length_eq h12
  obtain ⟨s1, hr1, he1⟩ := h12
  obtain ⟨s2, hr2, he2⟩ := h23
  refine ⟨s1 ++ s2, ?_, ?_⟩
  · intro p hp
    rcases List.mem_append.mp hp with hp | hp
    · exact hr1 p hp
    · have := hr2 p hp
      unfold byTime.Len at this ⊢
      rw [hlen] at this
      exact this
  · rw [applySwaps_append, ← he1, he2]

theorem swapReachable_swap (data : byTime) (i j : Nat) (hi : i < data.length)
    (hj : j < data.length) : SwapReachable data (data.Swap i j) :=
  ⟨[(i, j)], by
    intro p hp
    have : p = (i, j) := by simpa using hp
    subst this
    exact ⟨hi, hj⟩, rfl⟩

/-- Calls of `Swap` with indices in range rearrange the slice. -/
theorem swapReachable_perm {data result : byTime} (h : SwapReachable data result) :
    result.Perm data := by
  obtain ⟨swaps, hr, he⟩ := h
  subst he
  induction swaps generalizing data with
  | nil => exact List.Perm.refl _
  | cons p rest ih =>
    obtain ⟨i, j⟩ := p
    have hij := hr (i, j) (by simp)
    have hp : (data.Swap i j).Perm data := swap_perm data i j hij.1 hij.2
    rw [applySwaps]
    refine (ih ?_).trans hp
    intro q hq
    have := hr q (List.mem_cons_of_mem _ hq)
    unfold byTime.Len at this ⊢
    rw [swap_length]
    exact this

/-- The inner loop of `insertionSort` only calls `Swap`, with indices in range. -/
theorem insertionInner_reach (a : Nat) :
    ∀ (j : Nat) (data : byTime), j < data.length → SwapReachable data (insertionInner a j data)
  | 0, data, _ => by
    rw [insertionInner]
    exact swapReachable_refl data
  | j + 1, data, h => by
    unfold insertionInner
    by_cases hc : (decide (j + 1 > a) && data.Less (j + 1) j) = true
    · rw [if_pos hc]
      have hs := swapReachable_swap data (j + 1) j h (by omega)
      exact swapReachable_trans hs (insertionInner_reach a j _ (by rw [swap_length]; omega))
    · rw [if_neg hc]
      exact swapReachable_refl data

/-- The outer loop of `insertionSort` only calls `Swap`, with indices in range. -/
theorem insertionOuter_reach (a : Nat) :
    ∀ (n i : Nat) (data : byTime), i + n ≤ data.length →
      SwapReachable data (insertionOuter a n i data)
  | 0, _, data, _ => by
    rw [insertionOuter]
    exact swapReachable_refl data
  | n + 1, i, data, h => by
    rw [insertionOuter]
    have h1 := insertionInner_reach a i data (by omega)
    exact swapReachable_trans h1
      (insertionOuter_reach a n (i + 1) _ (by rw [swapReachable_length_eq h1]; omega))

/-- The ShellSort pass only calls `Swap`, with indices in range. -/
theorem shellPass_reach :
    ∀ (n i : Nat) (data : byTime), i + n ≤ data.length →
      SwapReachable data (shellPass n i data)
  | 0, _, data, _ => by
    rw [shellPass]
    exact swapReachable_refl data
  | n + 1, i, data, h => by
    unfold shellPass
    by_cases hl : data.Less i (i - 6) = true
    · rw [if_pos hl]
      have hs := swapReachable_swap data i (i - 6) (by omega) (by omega)
      exact swapReachable_trans hs (shellPass_reach n (i + 1) _ (by rw [swap_length]; omega))
    · rw [if_neg hl]
      exact shellPass_reach n (i + 1) data (by omega)

/-- On every slice `sortShort` only calls `Swap`, with indices in range. -/
theorem sortShort_reach (data : byTime) : SwapReachable data (sortShort data) := by
  unfold sortShort quickSortShort byTime.Len
  by_cases h : data.length - 0 > 1
  · rw [if_pos h]
    have h1 : SwapReachable data (shellPass (data.length - (0 + 6)) (0 + 6) data) := by
      by_cases h6 : 6 ≤ data.length
      · exact shellPass_reach _ _ data (by omega)
      · have : data.length - (0 + 6) = 0 := by omega
        rw [this, shellPass]
        exact swapReachable_refl data
    unfold insertionSort
    exact swapReachable_trans h1
      (insertionOuter_reach 0 _ _ _ (by rw [swapReachable_length_eq h1]; omega))
  · rw [if_neg h]
    exact swapReachable_refl data

/-- On every slice `sortShort` ends with non-decreasing timestamps. -/
theorem sortShort_sorted (data : byTime) : TimeSorted (sortShort data) := by
  unfold sortShort quickSortShort byTime.Len
  by_cases h : data.length - 0 > 1
  · rw [if_pos h]
    have hlen : (shellPass (data.length - (0 + 6)) (0 + 6) data).length = data.length := by
      by_cases h6 : 6 ≤ data.length
      · exact swapReachable_length_eq (shellPass_reach _ _ data (by omega))
      · have : data.length - (0 + 6) = 0 := by omega
        rw [this, shellPass]
    generalize shellPass (data.length - (0 + 6)) (0 + 6) data = d at hlen
    rw [← hlen] at h ⊢
    cases d with
    | nil => simp at h
    | cons x T =>
      have := insertionOuter_spec T [x] (by simp [TimeSorted])
      simp only [List.length_singleton, List.singleton_append] at this
      unfold insertionSort
      simp only [List.length_cons, Nat.zero_add, Nat.add_sub_cancel]
      exact this.1
  · rw [if_neg h]
    cases data with
    | nil => simp [TimeSorted]
    | cons x T =>
      cases T with
      | nil => simp [TimeSorted]
      | cons y T => simp at h

/-- Non-decreasing timestamps, said with the method `Less`. -/
theorem timeSorted_iff_less (l : byTime) :
    TimeSorted l ↔ ∀ i j : Nat, i < j → j < byTime.Len l → byTime.Less l j i = false := by
  unfold TimeSorted byTime.Len byTime.Less
  rw [List.pairwise_iff_getElem]
  constructor
  · intro h i j hij hj
    have hi : i < l.length := by omega
    have := h i j hi hj hij
    rw [List.getD_eq_getElem l default hi, List.getD_eq_getElem l default hj]
    simpa using this
  · intro h i j hi hj hij
    have := h i j hij hj
    rw [List.getD_eq_getElem l default hi, List.getD_eq_getElem l default hj] at this
    simpa using this

/-- The function `sort.Sort` on short slices satisfies the contract of `sort.Sort`. -/
theorem sortShort_contract : SortContract sortShort := by
  intro data
  exact ⟨sortShort_reach data, (timeSorted_iff_less _).mp (sortShort_sorted data)⟩

/-! ## `strings.TrimSpace` and `printMessage` -/

/-- A list that `dropWhile` leaves alone has no beginning that it would shorten. -/
theorem dropWhile_fixed_of_initial (p : Char → Bool) :
    ∀ (r d : List Char), r <+: d → d.dropWhile p = d → r.dropWhile p = r
  | [], _, _, _ => rfl
  | x :: r, d, hpre, hd => by
    obtain ⟨t, ht⟩ := hpre
    subst ht
    have hx : p x = false := by
      by_contra hpx
      have hpx2 : p x = true := by simpa using hpx
      have hlen := congrArg List.length hd
      simp only [List.cons_append, List.dropWhile_cons, hpx2, if_true, List.length_cons] at hlen
      have := (List.dropWhile_sublist p (l := r ++ t)).length_le
      omega
    simp [List.dropWhile_cons, hx]

/-- Trimming twice is trimming once. -/
theorem trimSpaceChars_idem (s : List Char) :
    trimSpaceChars (trimSpaceChars s) = trimSpaceChars s := by
  unfold trimSpaceChars
  have hpre : ((s.dropWhile unicodeIsSpace).reverse.dropWhile unicodeIsSpace).reverse
      <+: s.dropWhile unicodeIsSpace := List.rdropWhile_prefix unicodeIsSpace _
  rw [dropWhile_fixed_of_initial unicodeIsSpace _ _ hpre (List.dropWhile_idempotent _ _),
    List.reverse_reverse, List.dropWhile_idempotent]

theorem TrimSpace_idem (s : String) : TrimSpace (TrimSpace s) = TrimSpace s := by
  unfold TrimSpace
  rw [trimSpaceChars_idem]

/-- Trimming removes a run of white space at each end and nothing else, and
what is left neither starts nor ends with white space. -/
theorem trimSpaceChars_spec (s : List Char) :
    ∃ ws1 ws2 : List Char, s = ws1 ++ trimSpaceChars s ++ ws2 ∧
      (∀ c ∈ ws1, unicodeIsSpace c = true) ∧ (∀ c ∈ ws2, unicodeIsSpace c = true) ∧
      (∀ c ∈ (trimSpaceChars s).head?, unicodeIsSpace c = false) ∧
      (∀ c ∈ (trimSpaceChars s).getLast?, unicodeIsSpace c = false) := by
  refine ⟨s.takeWhile unicodeIsSpace,
    ((s.dropWhile unicodeIsSpace).reverse.takeWhile unicodeIsSpace).reverse, ?_, ?_, ?_, ?_, ?_⟩
  · unfold trimSpaceChars
    rw [List.append_assoc, ← List.reverse_append, List.takeWhile_append_dropWhile,
      List.reverse_reverse, List.takeWhile_append_dropWhile]
  · intro c hc
    exact List.mem_takeWhile_imp hc
  · intro c hc
    exact List.mem_takeWhile_imp (List.mem_reverse.mp hc)
  · intro c hc
    have hfix : (trimSpaceChars s).dropWhile unicodeIsSpace = trimSpaceChars s := by
      unfold trimSpaceChars
      exact dropWhile_fixed_of_initial unicodeIsSpace _ _
        (List.rdropWhile_prefix unicodeIsSpace _) (List.dropWhile_idempotent _ _)
    cases ht : trimSpaceChars s with
    | nil => rw [ht] at hc; simp at hc
    | cons x t =>
      rw [ht] at hc hfix
      have hcx : c = x := by simpa using hc.symm
      subst hcx
      by_contra hp
      have hp2 : unicodeIsSpace c = true := by simpa using hp
      have hlen := congrArg List.length hfix
      simp only [List.dropWhile_cons, hp2, if_true, List.length_cons] at hlen
      have := (List.dropWhile_sublist unicodeIsSpace (l := t)).length_le
      omega
  · intro c hc
    unfold trimSpaceChars at hc
    rw [List.getLast?_reverse] at hc
    cases hd : (s.dropWhile unicodeIsSpace).reverse.dropWhile unicodeIsSpace with
    | nil => rw [hd] at hc; simp at hc
    | cons x t =>
      rw [hd] at hc
      have hcx : c = x := by simpa using hc.symm
      subst hcx
      have hfix := List.dropWhile_idempotent unicodeIsSpace (s.dropWhile unicodeIsSpace).reverse
      rw [hd] at hfix
      by_contra hp
      have hp2 : unicodeIsSpace c = true := by simpa using hp
      have hlen := congrArg List.length hfix
      simp only [List.dropWhile_cons, hp2, if_true, List.length_cons] at hlen
      have := (List.dropWhile_sublist unicodeIsSpace (l := t)).length_le
      omega

/-- A message made of white space only trims to the empty string. -/
theorem TrimSpace_of_all_space (s : String)
    (h : ∀ c ∈ s.data, unicodeIsSpace c = true) : TrimSpace s = "" := by
  unfold TrimSpace trimSpaceChars
  have : s.data.dropWhile unicodeIsSpace = [] := List.dropWhile_eq_nil_iff.mpr h
  rw [this]
  rfl

/-- The Go `len` of a string is zero exactly for the empty string. -/
theorem utf8ByteSize_eq_zero_iff (s : String) : s.utf8ByteSize = 0 ↔ s = "" := by
  constructor
  · intro h
    rcases s with ⟨l⟩
    cases l with
    | nil => rfl
    | cons c t =>
      exfalso
      have hpos := Char.utf8Size_pos c
      simp only [String.utf8ByteSize, String.utf8ByteSize.go] at h
      omega
  · intro h
    subst h
    rfl

theorem printfTexts_append (a b : List Output) :
    printfTexts (a ++ b) = printfTexts a ++ printfTexts b := by
  induction a with
  | nil => rfl
  | cons o a ih => cases o <;> simp [printfTexts, ih]

theorem printfTexts_messageHeader (logMessage : LogLine) (multiple : Bool) :
    printfTexts (messageHeader logMessage multiple) = [] := by
  unfold messageHeader
  cases multiple <;> by_cases h1 : logMessage.Stream = "stderr" <;>
    by_cases h2 : logMessage.Stream = "messages" <;>
    simp [h1, h2, printfTexts]

/-! ## `doLog` -/

theorem printLoop_eq (multiple : Bool) :
    ∀ (lines : List LogLine) (tr : List Event),
      printLoop multiple lines tr = tr ++ lines.map (fun line => Event.printed line multiple)
  | [], tr => by simp [printLoop]
  | line :: rest, tr => by
    rw [printLoop, printLoop_eq multiple rest]
    simp

theorem printedLines_append (a b : List Event) :
    printedLines (a ++ b) = printedLines a ++ printedLines b := by
  induction a with
  | nil => rfl
  | cons e a ih => cases e <;> simp [printedLines, ih]

theorem printedLines_map_printed (multiple : Bool) (lines : List LogLine) :
    printedLines (lines.map (fun line => Event.printed line multiple)) = lines := by
  induction lines with
  | nil => rfl
  | cons l lines ih => simp [printedLines, ih]

theorem startedFollowers_append (a b : List Event) :
    startedFollowers (a ++ b) = startedFollowers a ++ startedFollowers b := by
  induction a with
  | nil => rfl
  | cons e a ih => cases e <;> simp [startedFollowers, ih]

/-- A successful scanning loop returns the parses of all the lines and their
number. -/
theorem scanLoop_ok_inv (parse : String → Except GoError LogLine) (lines : List String)
    (vs : List LogLine) (n : Int) (h : scanLoop parse lines [] 0 = .ok (vs, n)) :
    lines.map parse = vs.map Except.ok ∧ n = lines.length := by
  obtain ⟨good, rest, vs2, h1, h2, h3⟩ := exists_parse_split parse lines
  rcases h3 with h3 | ⟨bad, tl, err, h3, h4⟩
  · subst h3
    simp only [List.append_nil] at h1
    subst h1
    rw [scanLoop_ok parse lines vs2 [] 0 h2] at h
    simp only [List.nil_append, zero_add, Except.ok.injEq, Prod.mk.injEq] at h
    rw [← h.1, ← h.2]
    exact ⟨h2, rfl⟩
  · subst h3
    subst h1
    rw [scanLoop_error parse good bad tl vs2 [] 0 err h2 h4] at h
    simp at h

/-- The three ways one source's historical read can go: skipped for want of a
launch command; failed after opening, with no entries and no follower; or read
to the end, all lines parsed, and the follower then started with the number of
lines read. -/
theorem source_cases (w : World) (s : ServiceConfig) :
    (s.Commands.Launch = "" ∧ sourceLines w s = [] ∧ sourceError w s = none ∧
      sourceEvents w s = []) ∨
    (s.Commands.Launch ≠ "" ∧ sourceLines w s = [] ∧ (∃ err, sourceError w s = some err) ∧
      sourceEvents w s = [Event.opened s.RunLog]) ∨
    (s.Commands.Launch ≠ "" ∧ sourceError w s = none ∧
      ∃ lines : List String, w.Open s.RunLog = .ok ⟨lines, none⟩ ∧
        lines.map w.ParseLogLine = (sourceLines w s).map Except.ok ∧
        sourceEvents w s = [Event.opened s.RunLog, Event.started s lines.length]) := by
  unfold sourceLines sourceError sourceEvents followServiceLog
  by_cases hl : s.Commands.Launch = ""
  · left
    simp [hl]
  · right
    simp only [hl, if_false, List.nil_append]
    cases ho : w.Open s.RunLog with
    | error err => left; simp [hl]
    | ok logFile =>
      simp only
      cases hsc : scanLoop w.ParseLogLine logFile.lines [] 0 with
      | error err => left; simp [hl]
      | ok r =>
        obtain ⟨initialLines, lineCount⟩ := r
        simp only
        obtain ⟨hp, hn⟩ := scanLoop_ok_inv _ _ _ _ hsc
        rcases logFile with ⟨lines, scanErr⟩
        cases scanErr with
        | some err => left; simp [hl]
        | none =>
          right
          refine ⟨hl, by simp, lines, rfl, hp, ?_⟩
          simp [hn]

theorem printedLines_sourceEvents (w : World) (s : ServiceConfig) :
    printedLines (sourceEvents w s) = [] := by
  rcases source_cases w s with ⟨_, _, _, h⟩ | ⟨_, _, _, h⟩ | ⟨_, _, _, _, _, h⟩ <;>
    rw [h] <;> rfl

theorem printedLines_flatMap_sourceEvents (w : World) (xs : List ServiceConfig) :
    printedLines (xs.flatMap (sourceEvents w)) = [] := by
  induction xs with
  | nil => rfl
  | cons s xs ih =>
    rw [List.flatMap_cons, printedLines_append, printedLines_sourceEvents, ih]
    rfl

/-- A run of `doLog` in which every source is read successfully: the scan
events of the sources in order, then the sorted history printed, then the lines
received from the channel printed. -/
theorem doLog_ok (w : World) (args : List String) (received : List LogLine)
    (sgs : List ServiceOrGroup) (hargs : args.length ≠ 0)
    (hres : w.GetServicesOrGroups args = .ok sgs)
    (hscan : ∀ s ∈ selectionSources sgs, sourceError w s = none) :
    doLog w args received =
      (none,
        (selectionSources sgs).flatMap (sourceEvents w)
          ++ (w.SortSort ((selectionSources sgs).flatMap (sourceLines w))).map
              (fun line => Event.printed line (decide (w.CountServices sgs > 1)))
          ++ received.map
              (fun line => Event.printed line (decide (w.CountServices sgs > 1)))) := by
  unfold doLog
  rw [if_neg hargs, hres]
  simp only
  rw [doLogScan_eq_scanSources, scanSources_ok w _ [] [] hscan]
  simp only [List.nil_append]
  rw [printLoop_eq, printLoop_eq]

/-- A run of `doLog` in which the read of a source fails: `doLog` returns that
error after the scan events of the sources up to and including it. -/
theorem doLog_fail (w : World) (args : List String) (received : List LogLine)
    (sgs : List ServiceOrGroup) (pre : List ServiceConfig) (s : ServiceConfig)
    (post : List ServiceConfig) (err : GoError) (hargs : args.length ≠ 0)
    (hres : w.GetServicesOrGroups args = .ok sgs)
    (hsplit : selectionSources sgs = pre ++ s :: post)
    (hpre : ∀ x ∈ pre, sourceError w x = none) (hs : sourceError w s = some err) :
    doLog w args received =
      (some err, pre.flatMap (sourceEvents w) ++ sourceEvents w s) := by
  unfold doLog
  rw [if_neg hargs, hres]
  simp only
  rw [doLogScan_eq_scanSources, hsplit, scanSources_fail w pre s post [] [] err hpre hs]
  simp

theorem selectionSources_append (xs ys : List ServiceOrGroup) :
    selectionSources (xs ++ ys) = selectionSources xs ++ selectionSources ys := by
  induction xs with
  | nil => rfl
  | cons sg xs ih =>
    cases sg with
    | service v => simp [selectionSources, ih]
    | group v => simp [selectionSources, ih]

/-- A source without launch command can be left out of a scan. -/
theorem scanSources_skip (w : World) (s : ServiceConfig) (hlaunch : s.Commands.Launch = "")
    (pre post : List ServiceConfig) (lines : List LogLine) (tr : List Event) :
    scanSources w (pre ++ s :: post) lines tr = scanSources w (pre ++ post) lines tr := by
  rw [scanSources_append, scanSources_append w pre post]
  rcases scanSources w pre lines tr with ⟨⟨lines2, e⟩, tr2⟩
  cases e with
  | some e => rfl
  | none =>
    simp only [scanSources]
    have : followServiceLog w s tr2 = (([], none), tr2) := by
      unfold followServiceLog
      rw [if_pos hlaunch]
    rw [this]
    simp

/-- The follower started with skip count `skipLines` on the stream `L` behaves as
a follower without skip count on the stream `L` without its first `skipLines`
lines. -/
theorem doFollowServiceLog_eq (w : World) (service : ServiceConfig) (skipLines : Int)
    (L : List String) (htail : w.TailFile service.RunLog = .ok L) :
    doFollowServiceLog w service skipLines =
      followLoop w.ParseLogLine skipLines (L.drop skipLines.toNat) (max 0 skipLines) [] := by
  unfold doFollowServiceLog
  simp only [htail]
  rw [followLoop_skip]
  simp

/-- The contract of `sort.Sort` gives non-decreasing timestamps. -/
theorem sortContract_timeSorted {sortSort : List LogLine → List LogLine}
    (h : SortContract sortSort) (data : List LogLine) : TimeSorted (sortSort data) :=
  (timeSorted_iff_less _).mpr (h data).2

/-- The contract of `sort.Sort` gives a rearrangement: `byTime.Swap` exchanges
two elements and loses none. -/
theorem sortContract_perm {sortSort : List LogLine → List LogLine}
    (h : SortContract sortSort) (data : List LogLine) : (sortSort data).Perm data :=
  swapReachable_perm (h data).1

/-- The printed lines of a run of `doLog` in which every source is read
successfully: the sorted history, then the lines received. -/
theorem printedLines_doLog_ok (w : World) (args : List String) (received : List LogLine)
    (sgs : List ServiceOrGroup) (hargs : args.length ≠ 0)
    (hres : w.GetServicesOrGroups args = .ok sgs)
    (hscan : ∀ s ∈ selectionSources sgs, sourceError w s = none) :
    printedLines (doLog w args received).2 =
      w.SortSort ((selectionSources sgs).flatMap (sourceLines w)) ++ received := by
  rw [doLog_ok w args received sgs hargs hres hscan]
  simp only [printedLines_append, printedLines_flatMap_sourceEvents, printedLines_map_printed,
    List.nil_append]

/-- A list without repeated values holds at most one element of a given value. -/
theorem length_le_one_of_nodup_of_const {t : Int} :
    ∀ l : List Int, l.Nodup → (∀ x ∈ l, x = t) → l.length ≤ 1
  | [], _, _ => by simp
  | [_], _, _ => by simp
  | x :: y :: l, hn, hc => by
    exfalso
    have hx : x = t := hc x (by simp)
    have hy : y = t := hc y (by simp)
    rw [hx, hy] at hn
    simp at hn

/-- Rearrangements of a list with at most one element are equal. -/
theorem perm_eq_of_length_le_one {l1 l2 : List LogLine} (hp : l1.Perm l2)
    (hlen : l2.length ≤ 1) : l1 = l2 := by
  match l2, hlen, hp with
  | [], _, hp => exact List.Perm.eq_nil hp
  | [x], _, hp => exact List.perm_singleton.mp hp
  | _ :: _ :: _, hlen, _ => simp at hlen

theorem groupsSources_eq_flatMap :
    ∀ gs : List ServiceGroupConfig, groupsSources gs = gs.flatMap groupSources
  | [] => by simp [groupsSources]
  | g :: rest => by
    rw [groupsSources, groupsSources_eq_flatMap rest, List.flatMap_cons]

/-- Either every source of a list is read successfully, or there is a first
source whose read fails. -/
theorem all_ok_or_first_failure (w : World) :
    ∀ xs : List ServiceConfig,
      (∀ s ∈ xs, sourceError w s = none) ∨
        ∃ (pre : List ServiceConfig) (s : ServiceConfig) (post : List ServiceConfig)
          (err : GoError),
          xs = pre ++ s :: post ∧ (∀ x ∈ pre, sourceError w x = none) ∧
            sourceError w s = some err
  | [] => Or.inl (by simp)
  | s :: rest => by
    cases hs : sourceError w s with
    | some err => exact Or.inr ⟨[], s, rest, err, rfl, by simp, hs⟩
    | none =>
      rcases all_ok_or_first_failure w rest with hall | ⟨pre, x, post, err, h1, h2, h3⟩
      · left
        intro y hy
        rcases List.mem_cons.mp hy with rfl | hy
        · exact hs
        · exact hall y hy
      · right
        refine ⟨s :: pre, x, post, err, by simp [h1], ?_, h3⟩
        intro y hy
        rcases List.mem_cons.mp hy with rfl | hy
        · exact hs
        · exact h2 y hy

/-- A source whose read fails has been opened and nothing more. -/
theorem sourceEvents_of_error (w : World) (s : ServiceConfig) (err : GoError)
    (h : sourceError w s = some err) : sourceEvents w s = [Event.opened s.RunLog] := by
  rcases source_cases w s with ⟨_, _, h2, _⟩ | ⟨_, _, _, h2⟩ | ⟨_, h2, _⟩
  · rw [h] at h2
    simp at h2
  · exact h2
  · rw [h] at h2
    simp at h2

theorem startedFollowers_flatMap (w : World) (xs : List ServiceConfig) :
    startedFollowers (xs.flatMap (sourceEvents w))
      = xs.flatMap (fun x => startedFollowers (sourceEvents w x)) := by
  induction xs with
  | nil => rfl
  | cons s xs ih => simp [List.flatMap_cons, startedFollowers_append, ih]

/-- The events of sources that are read successfully start no follower for a
source whose read fails. -/
theorem started_not_mem_of_error (w : World) (pre : List ServiceConfig) (s : ServiceConfig)
    (err : GoError) (hpre : ∀ x ∈ pre, sourceError w x = none)
    (hs : sourceError w s = some err) (n : Int) :
    Event.started s n ∉ pre.flatMap (sourceEvents w) ++ [Event.opened s.RunLog] := by
  intro hmem
  rcases List.mem_append.mp hmem with hmem | hmem
  · obtain ⟨x, hx, hxe⟩ := List.mem_flatMap.mp hmem
    have hxok := hpre x hx
    rcases source_cases w x with ⟨_, _, _, h2⟩ | ⟨_, _, _, h2⟩ | ⟨_, _, lines, _, _, h2⟩
    · rw [h2] at hxe
      simp at hxe
    · rw [h2] at hxe
      simp at hxe
    · rw [h2] at hxe
      simp only [List.mem_cons, Event.started.injEq, List.mem_singleton, reduceCtorEq,
        false_or, List.not_mem_nil, or_false] at hxe
      rw [hxe.1, hxok] at hs
      simp at hs
  · simp at hmem

/-! ## Properties of the specification -/

/-- C1. Handoff without duplicates or gaps: for a source with a launch command
whose run log holds the parseable lines `L1` at scan time and is seen by the
follower as `L1 ++ L2` (all parseable), `followServiceLog` returns exactly the
parses of `L1` in file order and starts the follower with skip count
`L1.length`, the number of raw lines read; `doFollowServiceLog` with that skip
count writes exactly the parses of `L2` in file order; so history followed by
live output is the parses of `L1 ++ L2`, each line once. -/
theorem handoff_without_duplicates_or_gaps (w : World) (service : ServiceConfig)
    (tr : List Event) (L1 L2 : List String) (vs1 vs2 : List LogLine)
    (hlaunch : service.Commands.Launch ≠ "")
    (hopen : w.Open service.RunLog = .ok ⟨L1, none⟩)
    (htail : w.TailFile service.RunLog = .ok (L1 ++ L2))
    (h1 : L1.map w.ParseLogLine = vs1.map Except.ok)
    (h2 : L2.map w.ParseLogLine = vs2.map Except.ok) :
    followServiceLog w service tr =
        ((vs1, none), tr ++ [Event.opened service.RunLog, Event.started service L1.length]) ∧
      doFollowServiceLog w service L1.length = (vs2, none) ∧
      (followServiceLog w service tr).1.1 ++ (doFollowServiceLog w service L1.length).1
        = vs1 ++ vs2 ∧
      (L1 ++ L2).map w.ParseLogLine = (vs1 ++ vs2).map Except.ok := by
  have hA := followServiceLog_ok w service tr L1 vs1 hlaunch hopen h1
  have hB : doFollowServiceLog w service L1.length = (vs2, none) := by
    rw [doFollowServiceLog_eq w service L1.length (L1 ++ L2) htail]
    have hdrop : (L1 ++ L2).drop (L1.length : Int).toNat = L2 := by simp
    rw [hdrop, followLoop_deliver_ok w.ParseLogLine L1.length L2 vs2 _ [] (by simp) h2]
    simp
  refine ⟨hA, hB, ?_, ?_⟩
  · rw [hA, hB]
  · simp [h1, h2]

/-- C1 at the concrete session: the run log of `A` holds three lines at scan
time and five when followed. -/
theorem handoff_without_duplicates_or_gaps_witness :
    followServiceLog demoWorld svcA [] =
        ((demoHistoryA, none),
          [] ++ [Event.opened svcA.RunLog,
            Event.started svcA (["a1", "a2", "a3"] : List String).length]) ∧
      doFollowServiceLog demoWorld svcA (["a1", "a2", "a3"] : List String).length =
        (demoLiveA, none) ∧
      (followServiceLog demoWorld svcA []).1.1
          ++ (doFollowServiceLog demoWorld svcA (["a1", "a2", "a3"] : List String).length).1
        = demoHistoryA ++ demoLiveA ∧
      (["a1", "a2", "a3"] ++ ["a5", "a6"]).map demoWorld.ParseLogLine =
        (demoHistoryA ++ demoLiveA).map Except.ok :=
  handoff_without_duplicates_or_gaps demoWorld svcA [] ["a1", "a2", "a3"] ["a5", "a6"]
    demoHistoryA demoLiveA (by decide) (by rfl) (by rfl) (by rfl) (by rfl)

/-- C2. For every selection whose sources are all scanned successfully, the
historical lines `doLog` hands to `printMessage` (the printed lines before those
received from the channel) have non-decreasing timestamps and are a permutation
of the concatenation of the entries returned by the historical reads of all
sources; `sort.Sort` enters through its contract. -/
theorem historical_sequence_sorted_permutation (w : World) (args : List String)
    (received : List LogLine) (sgs : List ServiceOrGroup)
    (hargs : args.length ≠ 0) (hres : w.GetServicesOrGroups args = .ok sgs)
    (hsort : SortContract w.SortSort)
    (hscan : ∀ s ∈ selectionSources sgs, sourceError w s = none) :
    printedLines (doLog w args received).2 =
        w.SortSort ((selectionSources sgs).flatMap (sourceLines w)) ++ received ∧
      TimeSorted (w.SortSort ((selectionSources sgs).flatMap (sourceLines w))) ∧
      (w.SortSort ((selectionSources sgs).flatMap (sourceLines w))).Perm
        ((selectionSources sgs).flatMap (sourceLines w)) :=
  ⟨printedLines_doLog_ok w args received sgs hargs hres hscan,
    sortContract_timeSorted hsort _, sortContract_perm hsort _⟩

/-- C2 at the concrete session, the scenario of the specification: `A` holds
lines stamped 1, 2, 3 and `B` lines stamped 0, 4; the history printed is
`B[0], A[0], A[1], A[2], B[1]`. -/
theorem historical_sequence_sorted_permutation_witness :
    (printedLines (doLog demoWorld ["A", "B"] []).2 =
        demoWorld.SortSort
          ((selectionSources [ServiceOrGroup.service svcA, ServiceOrGroup.service svcB]).flatMap
            (sourceLines demoWorld)) ++ [] ∧
      TimeSorted (demoWorld.SortSort
        ((selectionSources [ServiceOrGroup.service svcA, ServiceOrGroup.service svcB]).flatMap
          (sourceLines demoWorld))) ∧
      (demoWorld.SortSort
        ((selectionSources [ServiceOrGroup.service svcA, ServiceOrGroup.service svcB]).flatMap
          (sourceLines demoWorld))).Perm
        ((selectionSources [ServiceOrGroup.service svcA, ServiceOrGroup.service svcB]).flatMap
          (sourceLines demoWorld))) ∧
      (printedLines (doLog demoWorld ["A", "B"] []).2).map LogLine.Time = [0, 1, 2, 3, 4] ∧
      (printedLines (doLog demoWorld ["A", "B"] []).2).map LogLine.Name
        = ["B", "A", "A", "A", "B"] :=
  ⟨historical_sequence_sorted_permutation demoWorld ["A", "B"] []
      [ServiceOrGroup.service svcA, ServiceOrGroup.service svcB]
      (by decide) (by rfl) sortShort_contract (by decide),
    by decide, by decide⟩

/-- C3 fails: `sort.Sort` is not a stable sort.  In the concrete session the run
log of `T` holds seven entries stamped 2, 2, 3, 3, 3, 3, 1.  The ShellSort pass
with gap 6 finds the seventh entry `Less` than the first and swaps them; the
insertion sort then moves the entry stamped 2 that now stands last down past
the entries stamped 3 and stops behind the other entry stamped 2, which is not
`Less`.  So the second of the two entries stamped 2 is emitted before the
first. -/
theorem historical_merge_not_stable :
    SortContract demoWorld.SortSort ∧
      (doLog demoWorld ["T"] []).1 = none ∧
      (sourceLines demoWorld svcT).map LogLine.Message
        = ["first of two equal", "second of two equal", "three", "three", "three", "three",
            "one"] ∧
      (printedLines (doLog demoWorld ["T"] []).2).map LogLine.Message
        = ["one", "second of two equal", "first of two equal", "three", "three", "three",
            "three"] ∧
      ¬ StableMerge
        ((selectionSources [ServiceOrGroup.service svcT]).flatMap (sourceLines demoWorld))
        (printedLines (doLog demoWorld ["T"] []).2) := by
  refine ⟨sortShort_contract, by decide, by decide, by decide, ?_⟩
  intro h
  have h2 := h 2
  revert h2
  decide

/-- C3 as amended.  The historical merge orders the entries by timestamp and is
not guaranteed to be stable: of two entries with different timestamps the
earlier one is emitted first, and for every timestamp the entries emitted with
it are those of the concatenation of the reads, each once, but in an order that
`sort.Sort` is free to choose; the order of the concatenation is kept when no
two entries have equal timestamps. -/
theorem historical_merge_orders_by_timestamp_only (w : World) (args : List String)
    (received : List LogLine) (sgs : List ServiceOrGroup)
    (hargs : args.length ≠ 0) (hres : w.GetServicesOrGroups args = .ok sgs)
    (hsort : SortContract w.SortSort)
    (hscan : ∀ s ∈ selectionSources sgs, sourceError w s = none) :
    printedLines (doLog w args received).2 =
        w.SortSort ((selectionSources sgs).flatMap (sourceLines w)) ++ received ∧
      (∀ (i j : Nat)
          (hi : i < (w.SortSort ((selectionSources sgs).flatMap (sourceLines w))).length)
          (hj : j < (w.SortSort ((selectionSources sgs).flatMap (sourceLines w))).length),
        ((w.SortSort ((selectionSources sgs).flatMap (sourceLines w))).get ⟨i, hi⟩).Time
          < ((w.SortSort ((selectionSources sgs).flatMap (sourceLines w))).get ⟨j, hj⟩).Time →
        i < j) ∧
      (∀ t : Int,
        ((w.SortSort ((selectionSources sgs).flatMap (sourceLines w))).filter
            (fun x => decide (x.Time = t))).Perm
          (((selectionSources sgs).flatMap (sourceLines w)).filter
            (fun x => decide (x.Time = t)))) ∧
      ((((selectionSources sgs).flatMap (sourceLines w)).map LogLine.Time).Nodup →
        StableMerge ((selectionSources sgs).flatMap (sourceLines w))
          (w.SortSort ((selectionSources sgs).flatMap (sourceLines w)))) := by
  have hsorted := sortContract_timeSorted hsort ((selectionSources sgs).flatMap (sourceLines w))
  have hperm := sortContract_perm hsort ((selectionSources sgs).flatMap (sourceLines w))
  refine ⟨printedLines_doLog_ok w args received sgs hargs hres hscan, ?_, ?_, ?_⟩
  · intro i j hi hj hlt
    by_contra hnot
    have hji : j ≤ i := Nat.le_of_not_lt hnot
    rcases Nat.eq_or_lt_of_le hji with heq | hlt2
    · subst heq
      exact lt_irrefl _ hlt
    · have := (List.pairwise_iff_getElem.mp hsorted) j i hj hi hlt2
      simp only [List.get_eq_getElem] at hlt
      omega
  · intro t
    exact hperm.filter _
  · intro hnodup t
    apply perm_eq_of_length_le_one (hperm.filter _)
    have hsub : ((((selectionSources sgs).flatMap (sourceLines w)).filter
        (fun x => decide (x.Time = t))).map LogLine.Time).Sublist
        (((selectionSources sgs).flatMap (sourceLines w)).map LogLine.Time) :=
      (List.filter_sublist _).map _
    have hlen := length_le_one_of_nodup_of_const (t := t) _ (hnodup.sublist hsub) (by
      intro x hx
      obtain ⟨y, hy, hxy⟩ := List.mem_map.mp hx
      have := (List.mem_filter.mp hy).2
      rw [← hxy]
      simpa using this)
    simpa using hlen

/-- C3 as amended, at the concrete session with the sources `A` and `B`. -/
theorem historical_merge_orders_by_timestamp_only_witness :
    printedLines (doLog demoWorld ["A", "B"] demoLiveA).2 =
        demoWorld.SortSort
          ((selectionSources [ServiceOrGroup.service svcA, ServiceOrGroup.service svcB]).flatMap
            (sourceLines demoWorld)) ++ demoLiveA ∧
      StableMerge
        ((selectionSources [ServiceOrGroup.service svcA, ServiceOrGroup.service svcB]).flatMap
          (sourceLines demoWorld))
        (demoWorld.SortSort
          ((selectionSources [ServiceOrGroup.service svcA, ServiceOrGroup.service svcB]).flatMap
            (sourceLines demoWorld))) :=
  ⟨(historical_merge_orders_by_timestamp_only demoWorld ["A", "B"] demoLiveA
      [ServiceOrGroup.service svcA, ServiceOrGroup.service svcB]
      (by decide) (by rfl) sortShort_contract (by decide)).1,
    (historical_merge_orders_by_timestamp_only demoWorld ["A", "B"] demoLiveA
      [ServiceOrGroup.service svcA, ServiceOrGroup.service svcB]
      (by decide) (by rfl) sortShort_contract (by decide)).2.2.2 (by decide)⟩

/-- C4. Source traversal order: `followGroupLog` on a group scans the sources of
its nested groups first, in listed order and depth-first, and then its direct
services in listed order, which is the order `groupSources` of the Source
Resolver, and on success returns their entries concatenated in that order;
`doLog` processes the items of the selection in the order given.  For the group
`G` with the nested group `H` (with `S1`) and the direct service `S2` the order
is `[S1, S2]`. -/
theorem source_traversal_order (w : World) (g : ServiceGroupConfig)
    (sgs : List ServiceOrGroup) (lines : List LogLine) (tr : List Event) :
    followGroupLog w g tr = scanSources w (groupSources g) [] tr ∧
      (doLogScan w sgs lines tr =
        match scanSources w (selectionSources sgs) lines tr with
        | ((_, some err), tr2) => (.error err, tr2)
        | ((lines2, none), tr2) => (.ok lines2, tr2)) ∧
      (∀ (name : String) (groups : List ServiceGroupConfig) (services : List ServiceConfig),
        groupSources (ServiceGroupConfig.mk name groups services)
          = groups.flatMap groupSources ++ services) ∧
      (∀ (v : ServiceConfig) (rest : List ServiceOrGroup),
        selectionSources (ServiceOrGroup.service v :: rest) = v :: selectionSources rest) ∧
      (∀ (v : ServiceGroupConfig) (rest : List ServiceOrGroup),
        selectionSources (ServiceOrGroup.group v :: rest)
          = groupSources v ++ selectionSources rest) ∧
      ((∀ s ∈ groupSources g, sourceError w s = none) →
        followGroupLog w g tr =
          (((groupSources g).flatMap (sourceLines w), none),
            tr ++ (groupSources g).flatMap (sourceEvents w))) ∧
      (∀ (nameG nameH : String) (S1 S2 : ServiceConfig),
        groupSources
            (ServiceGroupConfig.mk nameG [ServiceGroupConfig.mk nameH [] [S1]] [S2])
          = [S1, S2]) := by
  refine ⟨followGroupLog_eq_scanSources w g tr, doLogScan_eq_scanSources w sgs lines tr,
    ?_, ?_, ?_, ?_, ?_⟩
  · intro name groups services
    rw [groupSources, groupsSources_eq_flatMap]
  · intro v rest
    rfl
  · intro v rest
    rfl
  · intro h
    rw [followGroupLog_eq_scanSources, scanSources_ok w _ [] tr h]
    simp
  · intro nameG nameH S1 S2
    simp [groupSources, groupsSources]

/-- C4 at the concrete session: the group `G` with the nested group `H` (with
`A`) and the direct service `B`; `A` is scanned, its entries returned and its
follower started before `B` is opened. -/
theorem source_traversal_order_witness :
    followGroupLog demoWorld groupG [] =
        (((groupSources groupG).flatMap (sourceLines demoWorld), none),
          [] ++ (groupSources groupG).flatMap (sourceEvents demoWorld)) ∧
      groupSources groupG = [svcA, svcB] ∧
      (followGroupLog demoWorld groupG []).2 =
        [Event.opened "a.log", Event.started svcA 3, Event.opened "b.log",
          Event.started svcB 2] :=
  ⟨(source_traversal_order demoWorld groupG [] [] []).2.2.2.2.2.1 (by decide),
    by decide, by decide⟩

/-- C5 fails: `followServiceLog` starts the follower of a source as soon as that
source has been scanned.  In the concrete session the follower of `A` is started
before the run log of `B` is opened; and when the scan of `C` fails and `doLog`
returns its error, the follower of `A` has been started. -/
theorem followers_start_before_all_scans_finish :
    (doLog demoWorld ["A", "B"] []).2 =
        [Event.opened "a.log", Event.started svcA 3, Event.opened "b.log",
          Event.started svcB 2]
          ++ (printedLines (doLog demoWorld ["A", "B"] []).2).map
              (fun line => Event.printed line true) ∧
      ¬ FollowersStartAfterAllScans (doLog demoWorld ["A", "B"] []).2 ∧
      doLog demoWorld ["A", "C", "B"] [] =
        (some (GoError.withStack (GoError.new "unparseable line")),
          [Event.opened "a.log", Event.started svcA 3, Event.opened "c.log"]) ∧
      startedFollowers (doLog demoWorld ["A", "C", "B"] []).2 = [(svcA, 3)] := by
  refine ⟨by decide, ?_, by decide, by decide⟩
  intro h
  have := h 1 2 svcA 3 "b.log" (by decide) (by decide)
  omega

/-- C5 as amended.  The follower of a source is started by `followServiceLog`
itself, only after the historical scan of that source has read its run log to
the end with every line parsed, and before the next source is scanned.  So in a
run of `doLog` either every source is scanned successfully, each follower being
started right after its own scan, and the history is printed afterwards; or the
read of some source fails, `doLog` returns that error, and the followers started
are exactly those of the sources scanned before it: none for the failing source,
none for the sources after it. -/
theorem followers_start_after_own_scan (w : World) (args : List String)
    (received : List LogLine) (sgs : List ServiceOrGroup)
    (hargs : args.length ≠ 0) (hres : w.GetServicesOrGroups args = .ok sgs) :
    (∀ s : ServiceConfig,
      (s.Commands.Launch = "" ∧ sourceError w s = none ∧ sourceEvents w s = []) ∨
      ((∃ err, sourceError w s = some err) ∧ sourceEvents w s = [Event.opened s.RunLog]) ∨
      (sourceError w s = none ∧
        ∃ lines : List String, w.Open s.RunLog = .ok ⟨lines, none⟩ ∧
          lines.map w.ParseLogLine = (sourceLines w s).map Except.ok ∧
          sourceEvents w s = [Event.opened s.RunLog, Event.started s lines.length])) ∧
      (((∀ s ∈ selectionSources sgs, sourceError w s = none) ∧
          doLog w args received =
            (none,
              (selectionSources sgs).flatMap (sourceEvents w)
                ++ (w.SortSort ((selectionSources sgs).flatMap (sourceLines w))).map
                    (fun line => Event.printed line (decide (w.CountServices sgs > 1)))
                ++ received.map
                    (fun line => Event.printed line (decide (w.CountServices sgs > 1))))) ∨
        ∃ (pre : List ServiceConfig) (s : ServiceConfig) (post : List ServiceConfig)
          (err : GoError),
          selectionSources sgs = pre ++ s :: post ∧
          (∀ x ∈ pre, sourceError w x = none) ∧ sourceError w s = some err ∧
          doLog w args received =
            (some err, pre.flatMap (sourceEvents w) ++ [Event.opened s.RunLog]) ∧
          startedFollowers (doLog w args received).2
            = pre.flatMap (fun x => startedFollowers (sourceEvents w x)) ∧
          (∀ n : Int, Event.started s n ∉ (doLog w args received).2)) := by
  refine ⟨?_, ?_⟩
  · intro s
    rcases source_cases w s with ⟨h1, _, h3, h4⟩ | ⟨_, _, h3, h4⟩ | ⟨_, h2, h3⟩
    · exact Or.inl ⟨h1, h3, h4⟩
    · exact Or.inr (Or.inl ⟨h3, h4⟩)
    · exact Or.inr (Or.inr ⟨h2, h3⟩)
  · rcases all_ok_or_first_failure w (selectionSources sgs) with
      hall | ⟨pre, s, post, err, h1, h2, h3⟩
    · exact Or.inl ⟨hall, doLog_ok w args received sgs hargs hres hall⟩
    · right
      have hrun := doLog_fail w args received sgs pre s post err hargs hres h1 h2 h3
      rw [sourceEvents_of_error w s err h3] at hrun
      refine ⟨pre, s, post, err, h1, h2, h3, hrun, ?_, ?_⟩
      · rw [hrun]
        simp only [startedFollowers_append, startedFollowers_flatMap]
        simp [startedFollowers]
      · intro n
        rw [hrun]
        exact started_not_mem_of_error w pre s err h2 h3 n

/-- C5 as amended, at the concrete session: the scan of `C` fails after `A` has
been scanned and its follower started. -/
theorem followers_start_after_own_scan_witness :
    ((∀ s ∈ selectionSources
          [ServiceOrGroup.service svcA, ServiceOrGroup.service svcC, ServiceOrGroup.service svcB],
          sourceError demoWorld s = none) ∧
        doLog demoWorld ["A", "C", "B"] [] =
          (none,
            (selectionSources
                [ServiceOrGroup.service svcA, ServiceOrGroup.service svcC,
                  ServiceOrGroup.service svcB]).flatMap (sourceEvents demoWorld)
              ++ (demoWorld.SortSort
                  ((selectionSources
                      [ServiceOrGroup.service svcA, ServiceOrGroup.service svcC,
                        ServiceOrGroup.service svcB]).flatMap (sourceLines demoWorld))).map
                  (fun line => Event.printed line
                    (decide (demoWorld.CountServices
                      [ServiceOrGroup.service svcA, ServiceOrGroup.service svcC,
                        ServiceOrGroup.service svcB] > 1)))
              ++ ([] : List LogLine).map
                  (fun line => Event.printed line
                    (decide (demoWorld.CountServices
                      [ServiceOrGroup.service svcA, ServiceOrGroup.service svcC,
                        ServiceOrGroup.service svcB] > 1))))) ∨
      ∃ (pre : List ServiceConfig) (s : ServiceConfig) (post : List ServiceConfig)
        (err : GoError),
        selectionSources
            [ServiceOrGroup.service svcA, ServiceOrGroup.service svcC,
              ServiceOrGroup.service svcB] = pre ++ s :: post ∧
        (∀ x ∈ pre, sourceError demoWorld x = none) ∧ sourceError demoWorld s = some err ∧
        doLog demoWorld ["A", "C", "B"] [] =
          (some err, pre.flatMap (sourceEvents demoWorld) ++ [Event.opened s.RunLog]) ∧
        startedFollowers (doLog demoWorld ["A", "C", "B"] []).2
          = pre.flatMap (fun x => startedFollowers (sourceEvents demoWorld x)) ∧
        (∀ n : Int, Event.started s n ∉ (doLog demoWorld ["A", "C", "B"] []).2) :=
  (followers_start_after_own_scan demoWorld ["A", "C", "B"] []
    [ServiceOrGroup.service svcA, ServiceOrGroup.service svcC, ServiceOrGroup.service svcB]
    (by decide) (by rfl)).2

/-- C6. Historical read is all-or-nothing: when a line of the run log of a
source with a launch command fails to parse, `followServiceLog` returns the
error of the first such line and no entries, having opened the file and started
no follower; `followGroupLog` on a group that reaches this source returns no
entries together with that error and has started no follower for it; and `doLog`
returns that error without a single call of `printMessage`. -/
theorem historical_read_all_or_nothing (w : World) (service : ServiceConfig)
    (logFile : ScanView) (tr : List Event)
    (hlaunch : service.Commands.Launch ≠ "")
    (hopen : w.Open service.RunLog = .ok logFile)
    (hbad : ∃ l ∈ logFile.lines, ∃ err, w.ParseLogLine l = .error err) :
    ∃ bad ∈ logFile.lines, ∃ err, w.ParseLogLine bad = .error err ∧
      followServiceLog w service tr =
        (([], some (GoError.withStack err)), tr ++ [Event.opened service.RunLog]) ∧
      (∀ (g : ServiceGroupConfig) (pre post : List ServiceConfig) (tr2 : List Event),
        groupSources g = pre ++ service :: post → (∀ x ∈ pre, sourceError w x = none) →
        followGroupLog w g tr2 =
            (([], some (GoError.withStack err)),
              tr2 ++ pre.flatMap (sourceEvents w) ++ [Event.opened service.RunLog]) ∧
          ∀ n : Int, Event.started service n ∉
            pre.flatMap (sourceEvents w) ++ [Event.opened service.RunLog]) ∧
      (∀ (args : List String) (received : List LogLine) (sgs : List ServiceOrGroup)
          (pre post : List ServiceConfig),
        args.length ≠ 0 → w.GetServicesOrGroups args = .ok sgs →
        selectionSources sgs = pre ++ service :: post → (∀ x ∈ pre, sourceError w x = none) →
        doLog w args received =
            (some (GoError.withStack err),
              pre.flatMap (sourceEvents w) ++ [Event.opened service.RunLog]) ∧
          printedLines (doLog w args received).2 = []) := by
  obtain ⟨good, bad, tl, vs, err, hsplit, hgood, hb⟩ :=
    exists_first_failure w.ParseLogLine logFile.lines hbad
  have hrun : ∀ tr3, followServiceLog w service tr3 =
      (([], some (GoError.withStack err)), tr3 ++ [Event.opened service.RunLog]) :=
    fun tr3 => followServiceLog_parse_error w service tr3 logFile good bad tl vs err hlaunch
      hopen hsplit hgood hb
  have herr : sourceError w service = some (GoError.withStack err) := by
    unfold sourceError
    rw [hrun []]
  have hev : sourceEvents w service = [Event.opened service.RunLog] :=
    sourceEvents_of_error w service _ herr
  refine ⟨bad, by rw [hsplit]; simp, err, hb, hrun tr, ?_, ?_⟩
  · intro g pre post tr2 hg hpre
    refine ⟨?_, started_not_mem_of_error w pre service _ hpre herr⟩
    rw [followGroupLog_eq_scanSources, hg,
      scanSources_fail w pre service post [] tr2 _ hpre herr, hev]
  · intro args received sgs pre post hargs hres hsel hpre
    have hd := doLog_fail w args received sgs pre service post _ hargs hres hsel hpre herr
    rw [hev] at hd
    refine ⟨hd, ?_⟩
    rw [hd]
    simp only [printedLines_append, printedLines_flatMap_sourceEvents, List.nil_append]
    rfl

/-- C6 at the concrete session: the second line of the run log of `C` does not
parse, although the first one does. -/
theorem historical_read_all_or_nothing_witness :
    (∃ bad ∈ (ScanView.mk ["a1", "???", "a2"] none).lines, ∃ err,
      demoWorld.ParseLogLine bad = .error err ∧
      followServiceLog demoWorld svcC [] =
        (([], some (GoError.withStack err)), [] ++ [Event.opened svcC.RunLog]) ∧
      (∀ (g : ServiceGroupConfig) (pre post : List ServiceConfig) (tr2 : List Event),
        groupSources g = pre ++ svcC :: post →
        (∀ x ∈ pre, sourceError demoWorld x = none) →
        followGroupLog demoWorld g tr2 =
            (([], some (GoError.withStack err)),
              tr2 ++ pre.flatMap (sourceEvents demoWorld) ++ [Event.opened svcC.RunLog]) ∧
          ∀ n : Int, Event.started svcC n ∉
            pre.flatMap (sourceEvents demoWorld) ++ [Event.opened svcC.RunLog]) ∧
      (∀ (args : List String) (received : List LogLine) (sgs : List ServiceOrGroup)
          (pre post : List ServiceConfig),
        args.length ≠ 0 → demoWorld.GetServicesOrGroups args = .ok sgs →
        selectionSources sgs = pre ++ svcC :: post →
        (∀ x ∈ pre, sourceError demoWorld x = none) →
        doLog demoWorld args received =
            (some (GoError.withStack err),
              pre.flatMap (sourceEvents demoWorld) ++ [Event.opened svcC.RunLog]) ∧
          printedLines (doLog demoWorld args received).2 = [])) ∧
      followGroupLog demoWorld groupBad [] =
        (([], some (GoError.withStack (GoError.new "unparseable line"))),
          [Event.opened "a.log", Event.started svcA 3, Event.opened "c.log"]) ∧
      doLog demoWorld ["Bad"] demoLiveA =
        (some (GoError.withStack (GoError.new "unparseable line")),
          [Event.opened "a.log", Event.started svcA 3, Event.opened "c.log"]) :=
  ⟨historical_read_all_or_nothing demoWorld svcC ⟨["a1", "???", "a2"], none⟩ []
      (by decide) (by rfl) ⟨"???", by decide, GoError.new "unparseable line", by rfl⟩,
    by decide, by decide⟩

/-- C7. Follower skip semantics: for every skip count and every line stream `L`
seen by `doFollowServiceLog`, the values written to the channel are exactly the
parses, in order, of the lines after the first `skipLines` ones, up to the first
of these that fails to parse, where the follower returns that error and
delivers nothing more; a stream of at most `skipLines` lines delivers nothing;
and the skipped lines are neither parsed nor delivered: neither their content
nor what the parser would do with them changes the outcome. -/
theorem follower_skip_semantics (w : World) (service : ServiceConfig) (skipLines : Int)
    (L : List String) (htail : w.TailFile service.RunLog = .ok L) :
    (∃ (good rest : List String) (vs : List LogLine),
        L.drop skipLines.toNat = good ++ rest ∧
        good.map w.ParseLogLine = vs.map Except.ok ∧
        (doFollowServiceLog w service skipLines).1 = vs ∧
        ((rest = [] ∧ (doFollowServiceLog w service skipLines).2 = none) ∨
          ∃ bad tl err, rest = bad :: tl ∧ w.ParseLogLine bad = .error err ∧
            (doFollowServiceLog w service skipLines).2 = some (GoError.withStack err))) ∧
      (L.length ≤ skipLines.toNat → doFollowServiceLog w service skipLines = ([], none)) ∧
      (∀ (w2 : World) (L2 : List String), w2.TailFile service.RunLog = .ok L2 →
        L2.drop skipLines.toNat = L.drop skipLines.toNat →
        (∀ l ∈ L.drop skipLines.toNat, w2.ParseLogLine l = w.ParseLogLine l) →
        doFollowServiceLog w2 service skipLines = doFollowServiceLog w service skipLines) := by
  have hk : ¬ (max 0 skipLines < skipLines) := by
    intro h
    have := le_max_right 0 skipLines
    omega
  have heq := doFollowServiceLog_eq w service skipLines L htail
  refine ⟨?_, ?_, ?_⟩
  · obtain ⟨good, rest, vs, h1, h2, h3⟩ := exists_parse_split w.ParseLogLine (L.drop skipLines.toNat)
    refine ⟨good, rest, vs, h1, h2, ?_⟩
    rcases h3 with h3 | ⟨bad, tl, err, h3, h4⟩
    · subst h3
      rw [List.append_nil] at h1
      rw [heq, h1, followLoop_deliver_ok w.ParseLogLine skipLines good vs _ [] hk h2]
      exact ⟨by simp, Or.inl ⟨rfl, rfl⟩⟩
    · subst h3
      rw [heq, h1, followLoop_deliver_error w.ParseLogLine skipLines good bad tl vs _ [] err
        hk h2 h4]
      exact ⟨by simp, Or.inr ⟨bad, tl, err, rfl, h4, rfl⟩⟩
  · intro hlen
    rw [heq, List.drop_eq_nil_of_le hlen]
    rfl
  · intro w2 L2 htail2 hdrop hparse
    rw [heq, doFollowServiceLog_eq w2 service skipLines L2 htail2, hdrop]
    exact followLoop_congr _ _ skipLines _ _ [] hk hparse

/-- C7 at the concrete session: the follower of `C` started with skip count 5
skips five lines, one of which does not parse, delivers the sixth, and stops at
the seventh, which does not parse, so that the eighth is never delivered. -/
theorem follower_skip_semantics_witness :
    doFollowServiceLog demoWorld svcC 5 =
        ([⟨"A", 6, "stdout", "a six"⟩], some (GoError.withStack (GoError.new "unparseable line"))) ∧
      ∃ (good rest : List String) (vs : List LogLine),
        (["a1", "???", "a2", "a3", "a5", "a6", "???", "b4"] : List String).drop (5 : Int).toNat
          = good ++ rest ∧
        good.map demoWorld.ParseLogLine = vs.map Except.ok ∧
        (doFollowServiceLog demoWorld svcC 5).1 = vs ∧
        ((rest = [] ∧ (doFollowServiceLog demoWorld svcC 5).2 = none) ∨
          ∃ bad tl err, rest = bad :: tl ∧ demoWorld.ParseLogLine bad = .error err ∧
            (doFollowServiceLog demoWorld svcC 5).2 = some (GoError.withStack err)) :=
  ⟨by decide,
    (follower_skip_semantics demoWorld svcC 5
      ["a1", "???", "a2", "a3", "a5", "a6", "???", "b4"] (by rfl)).1⟩

/-- C8. History first: in every run of `doLog` that reaches the presentation
phase, the calls of `printMessage` are exactly the sorted historical sequence,
in one pass, followed by the lines received from the channel in the order they
are received; everything recorded before is scanning; and a further line
received only adds its own call at the end. -/
theorem history_first (w : World) (args : List String) (received : List LogLine)
    (sgs : List ServiceOrGroup) (hargs : args.length ≠ 0)
    (hres : w.GetServicesOrGroups args = .ok sgs)
    (hscan : ∀ s ∈ selectionSources sgs, sourceError w s = none) :
    (doLog w args received).1 = none ∧
      (doLog w args received).2 =
        (selectionSources sgs).flatMap (sourceEvents w)
          ++ (w.SortSort ((selectionSources sgs).flatMap (sourceLines w))).map
              (fun line => Event.printed line (decide (w.CountServices sgs > 1)))
          ++ received.map
              (fun line => Event.printed line (decide (w.CountServices sgs > 1))) ∧
      printedLines ((selectionSources sgs).flatMap (sourceEvents w)) = [] ∧
      printedLines (doLog w args received).2 =
        w.SortSort ((selectionSources sgs).flatMap (sourceLines w)) ++ received ∧
      (∀ more : List LogLine,
        (doLog w args (received ++ more)).2 =
          (doLog w args received).2
            ++ more.map (fun line => Event.printed line (decide (w.CountServices sgs > 1)))) := by
  refine ⟨?_, ?_, printedLines_flatMap_sourceEvents w _,
    printedLines_doLog_ok w args received sgs hargs hres hscan, ?_⟩
  · rw [doLog_ok w args received sgs hargs hres hscan]
  · rw [doLog_ok w args received sgs hargs hres hscan]
  · intro more
    rw [doLog_ok w args received sgs hargs hres hscan,
      doLog_ok w args (received ++ more) sgs hargs hres hscan]
    simp

/-- C8 at the concrete session: the history of `A` and `B`, stamped 0 to 4, is
printed before the two lines received from the channel, which keep the order
in which they are received although the first one received is the later one. -/
theorem history_first_witness :
    printedLines (doLog demoWorld ["A", "B"] demoLiveA.reverse).2 =
        demoWorld.SortSort
            ((selectionSources [ServiceOrGroup.service svcA, ServiceOrGroup.service svcB]).flatMap
              (sourceLines demoWorld))
          ++ demoLiveA.reverse ∧
      (printedLines (doLog demoWorld ["A", "B"] demoLiveA.reverse).2).map LogLine.Time
        = [0, 1, 2, 3, 4, 6, 5] :=
  ⟨(history_first demoWorld ["A", "B"] demoLiveA.reverse
      [ServiceOrGroup.service svcA, ServiceOrGroup.service svcB]
      (by decide) (by rfl) (by decide)).2.2.2.1,
    by decide⟩

/-- C9. A service whose launch command is empty: `followServiceLog` returns no
log lines and no error, opens no file and starts no follower (the trace is
unchanged); so the service can be dropped from any group's service list, from
any flat list of sources and from any selection without changing what is
returned or recorded. -/
theorem no_launch_command_contributes_nothing (w : World) (service : ServiceConfig)
    (tr : List Event) (hlaunch : service.Commands.Launch = "") :
    followServiceLog w service tr = (([], none), tr) ∧
      (∀ (pre post : List ServiceConfig) (lines : List LogLine) (tr2 : List Event),
        followServices w (pre ++ service :: post) lines tr2
          = followServices w (pre ++ post) lines tr2) ∧
      (∀ (pre post : List ServiceConfig) (lines : List LogLine) (tr2 : List Event),
        scanSources w (pre ++ service :: post) lines tr2
          = scanSources w (pre ++ post) lines tr2) ∧
      (∀ (pre post : List ServiceOrGroup) (lines : List LogLine) (tr2 : List Event),
        doLogScan w (pre ++ ServiceOrGroup.service service :: post) lines tr2
          = doLogScan w (pre ++ post) lines tr2) := by
  refine ⟨?_, ?_, ?_, ?_⟩
  · unfold followServiceLog
    rw [if_pos hlaunch]
  · intro pre post lines tr2
    rw [followServices_eq_scanSources, followServices_eq_scanSources]
    exact scanSources_skip w service hlaunch pre post lines tr2
  · intro pre post lines tr2
    exact scanSources_skip w service hlaunch pre post lines tr2
  · intro pre post lines tr2
    rw [doLogScan_eq_scanSources, doLogScan_eq_scanSources, selectionSources_append,
      selectionSources_append]
    simp only [selectionSources]
    rw [scanSources_skip w service hlaunch]

/-- C9 at the concrete session: the service `N` has no launch command. -/
theorem no_launch_command_contributes_nothing_witness :
    followServiceLog demoWorld svcN [Event.opened "a.log"] = (([], none), [Event.opened "a.log"]) ∧
      followServices demoWorld ([svcA] ++ svcN :: [svcB]) [] []
        = followServices demoWorld ([svcA] ++ [svcB]) [] [] :=
  ⟨(no_launch_command_contributes_nothing demoWorld svcN [Event.opened "a.log"] (by decide)).1,
    (no_launch_command_contributes_nothing demoWorld svcN [Event.opened "a.log"]
      (by decide)).2.1 [svcA] [svcB] [] []⟩

/-- C10. Blank filter: for every log line and either value of the multi-source
flag, `printMessage` emits nothing at all when the message is empty after
trimming leading and trailing white space, in particular when it consists of
white space only, and otherwise emits the trimmed message, followed by a
newline, in exactly one `Printf`, after the header and before `color.Unset`. -/
theorem blank_filter (logMessage : LogLine) (multiple : Bool) :
    (TrimSpace logMessage.Message = "" → printMessage logMessage multiple = []) ∧
      ((∀ c ∈ logMessage.Message.data, unicodeIsSpace c = true) →
        printMessage logMessage multiple = []) ∧
      (TrimSpace logMessage.Message ≠ "" →
        printMessage logMessage multiple =
            messageHeader logMessage multiple
              ++ [Output.printf (TrimSpace logMessage.Message ++ "\n"), Output.colorUnset] ∧
          printfTexts (printMessage logMessage multiple)
            = [TrimSpace logMessage.Message ++ "\n"]) ∧
      (∃ ws1 ws2 : List Char,
        logMessage.Message.data = ws1 ++ (TrimSpace logMessage.Message).data ++ ws2 ∧
        (∀ c ∈ ws1, unicodeIsSpace c = true) ∧ (∀ c ∈ ws2, unicodeIsSpace c = true) ∧
        (∀ c ∈ (TrimSpace logMessage.Message).data.head?, unicodeIsSpace c = false) ∧
        (∀ c ∈ (TrimSpace logMessage.Message).data.getLast?, unicodeIsSpace c = false)) := by
  have hblank : TrimSpace logMessage.Message = "" → printMessage logMessage multiple = [] := by
    intro h
    unfold printMessage
    simp only [h]
    rfl
  refine ⟨hblank, fun h => hblank (TrimSpace_of_all_space _ h), ?_, ?_⟩
  · intro h
    have hsize : ¬ (TrimSpace logMessage.Message).utf8ByteSize = 0 :=
      fun h0 => h ((utf8ByteSize_eq_zero_iff _).mp h0)
    have hform : printMessage logMessage multiple =
        messageHeader logMessage multiple
          ++ [Output.printf (TrimSpace logMessage.Message ++ "\n"), Output.colorUnset] := by
      unfold printMessage messageHeader
      simp only [hsize, if_false, TrimSpace_idem]
    refine ⟨hform, ?_⟩
    rw [hform, printfTexts_append, printfTexts_messageHeader]
    rfl
  · exact trimSpaceChars_spec logMessage.Message.data

/-- C10 at a concrete line: a message of blanks, a tab and a newline prints
nothing; a message with white space around it prints its trimmed text once. -/
theorem blank_filter_witness :
    printMessage ⟨"A", 1, "stderr", " \t \n"⟩ true = [] ∧
      printMessage ⟨"A", 1, "stderr", " \t \n"⟩ false = [] ∧
      printfTexts (printMessage ⟨"A", 1, "stderr", "  a  one \n"⟩ true)
        = [TrimSpace (LogLine.mk "A" 1 "stderr" "  a  one \n").Message ++ "\n"] ∧
      printMessage ⟨"A", 1, "stderr", "  a  one \n"⟩ false
        = [Output.colorSet Color.FgRed, Output.printf "a  one\n", Output.colorUnset] :=
  ⟨(blank_filter ⟨"A", 1, "stderr", " \t \n"⟩ true).2.1 (by decide),
    (blank_filter ⟨"A", 1, "stderr", " \t \n"⟩ false).1 (by decide),
    ((blank_filter ⟨"A", 1, "stderr", "  a  one \n"⟩ true).2.2.1 (by decide)).2,
    by decide⟩

end Edward
